import Mathlib

/-!
Verification development for the amlight/coloring network application
(`src/main.py`).  The Python code is shallowly embedded: Python strings are
Lean `String`s, with the character-level operations (`split`, `join`,
`replace`, `"%02x"` formatting) modelled as structurally recursive functions
on `List Char`; Python dicts are insertion-ordered association lists; the
mutable `self.switches` registry is threaded explicitly through each pass;
the external flow-manager POST is an oracle mapping a request to the HTTP
status code it returns.
-/

/-! ### Python string primitives -/

/-- Python `s.split(sep)` for a single-character separator. -/
def splitCL (sep : Char) : List Char → List (List Char)
  | [] => [[]]
  | c :: cs =>
    match splitCL sep cs with
    | [] => [[c]]
    | g :: gs => if c = sep then [] :: g :: gs else (c :: g) :: gs

/-- Python `':'.join(xs)` on character lists. -/
def joinColon : List (List Char) → List Char
  | [] => []
  | [x] => x
  | x :: y :: xs => x ++ ':' :: joinColon (y :: xs)

/-- Python `s.replace('00', 'ee')`: Python replaces every non-overlapping occurrence
of the two-character pattern, scanning left to right. -/
def pyReplace00ee : List Char → List Char
  | [] => []
  | [c] => [c]
  | c :: d :: s =>
    if c = '0' ∧ d = '0' then 'e' :: 'e' :: pyReplace00ee s
    else c :: pyReplace00ee (d :: s)

/-- One lowercase hexadecimal digit (for values `0..15`). -/
def hexDigit (n : Nat) : Char :=
  Char.ofNat (if n < 10 then 48 + n else 87 + n)

/-- Python `'%02x' % b` for a byte `b < 256`. -/
def hexPair (b : Nat) : List Char :=
  [hexDigit (b / 16), hexDigit (b % 16)]

/-- Numeric value of one hexadecimal digit (Python `int(_, 16)` accepts both
cases; the code only ever parses datapath identifiers, which are hex). -/
def hexVal (c : Char) : Nat :=
  if 48 ≤ c.toNat ∧ c.toNat ≤ 57 then c.toNat - 48
  else if 97 ≤ c.toNat ∧ c.toNat ≤ 102 then c.toNat - 87
  else if 65 ≤ c.toNat ∧ c.toNat ≤ 70 then c.toNat - 55
  else 0

/-- Python `int(s, 16)` on a string of hexadecimal digits. -/
def parseHex (cs : List Char) : Nat :=
  cs.foldl (fun a c => 16 * a + hexVal c) 0

/-- Python `struct.pack('!Q', c)`: the 8 bytes of `c`, big-endian (`c < 2^64`). -/
def packQ (c : Nat) : List Nat :=
  [c / 2 ^ 56 % 256, c / 2 ^ 48 % 256, c / 2 ^ 40 % 256, c / 2 ^ 32 % 256,
   c / 2 ^ 24 % 256, c / 2 ^ 16 % 256, c / 2 ^ 8 % 256, c % 256]

/-- Python `struct.pack('!L', c)`: the 4 bytes of `c`, big-endian (`c < 2^32`). -/
def packL (c : Nat) : List Nat :=
  [c / 2 ^ 24 % 256, c / 2 ^ 16 % 256, c / 2 ^ 8 % 256, c % 256]

/-! ### The Color Codec: `Main.color_to_field` (src/main.py lines 133-158) -/

/-- A value suitable for a flow-match field: either a rendered string (MAC or
IPv4 address) or a plain integer. -/
inductive FieldValue where
  | str (s : String)
  | nat (n : Nat)
deriving DecidableEq, Repr

/-- The encoder `Main.color_to_field(color, field)`.  Python falls through all four `if`
blocks for an unrecognized field name and implicitly returns `None`, modelled
as `Option.none`. -/
def color_to_field (color : Nat) (field : String) : Option FieldValue :=
  if field = "dl_src" ∨ field = "dl_dst" then
    -- c = color & 0xffffffffffffffff; int_mac = struct.pack('!Q', c)[2:]
    -- color_value = ':'.join(['%02x' % b for b in int_mac])
    -- return color_value.replace('00', 'ee')
    some (FieldValue.str (String.mk (pyReplace00ee (joinColon
      (((packQ (color % 2 ^ 64)).drop 2).map hexPair)))))
  else if field = "nw_src" ∨ field = "nw_dst" then
    -- c = color & 0xffffffff; return '.'.join(map(str, struct.pack('!L', c)))
    some (FieldValue.str (String.intercalate "." ((packL (color % 2 ^ 32)).map
      (fun b => Nat.repr b))))
  else if field = "in_port" ∨ field = "dl_vlan" ∨ field = "tp_src" ∨ field = "tp_dst" then
    some (FieldValue.nat (color % 2 ^ 16))
  else if field = "nw_tos" ∨ field = "nw_proto" then
    some (FieldValue.nat (color % 2 ^ 8))
  else
    none

/-! ### Flow-rule documents (src/main.py lines 85-99) -/

/-- One entry of the `actions` list of a flow document. -/
structure ActionDoc where
  action_type : String
  port : Nat
deriving DecidableEq, Repr

/-- Association-list lookup (Python dict access / `in` test by key). -/
def alookup {β : Type} : List (String × β) → String → Option β
  | [], _ => none
  | (k, v) :: xs, d => if k = d then some v else alookup xs d

/-- Python dict item assignment to a possibly-present key: replace in place if
the key exists, otherwise append (insertion order preserved). -/
def aupdate {β : Type} (xs : List (String × β)) (d : String) (v : β) :
    List (String × β) :=
  xs.map (fun kv => if kv.1 = d then (d, v) else kv)

/-- Python `dict[k] = v` (insert or overwrite). -/
def dictSet (m : List (String × Option FieldValue)) (k : String)
    (v : Option FieldValue) : List (String × Option FieldValue) :=
  if (alookup m k).isSome then aupdate m k v else m ++ [(k, v)]

/-- The fixed `match` sub-dict of `flow_dict` before the color field is set. -/
def baseMatch : List (String × Option FieldValue) :=
  [("in_port", some (FieldValue.nat 0)),
   ("dl_src", some (FieldValue.str "00:00:00:00:00:00")),
   ("dl_dst", some (FieldValue.str "00:00:00:00:00:00")),
   ("dl_vlan", some (FieldValue.nat 0)),
   ("dl_type", some (FieldValue.nat 0)),
   ("nw_src", some (FieldValue.str "0.0.0.0")),
   ("nw_dst", some (FieldValue.str "0.0.0.0")),
   ("tp_src", some (FieldValue.nat 0)),
   ("tp_dst", some (FieldValue.nat 0))]

/-- The `flow_dict` value object of `update_colors`: all fields are literal
constants except the color match entry, which is set to
`color_to_field(neighbor_color, COLOR_FIELD)` under the key `COLOR_FIELD`.
The single action is `{'action_type': 'output', 'port': 65533}` — a fixed
constant in the source. -/
structure FlowDoc where
  idle_timeout : Nat
  hard_timeout : Nat
  table_id : Nat
  buffer_id : Option Nat
  match_fields : List (String × Option FieldValue)
  priority : Nat
  actions : List ActionDoc
deriving DecidableEq, Repr

/-- Build the flow document for a neighbor color (src/main.py lines 85-99). -/
def mkFlowDoc (colorField : String) (v : Option FieldValue) : FlowDoc :=
  { idle_timeout := 0, hard_timeout := 0, table_id := 0, buffer_id := none,
    match_fields := dictSet baseMatch colorField v,
    priority := 50000,
    actions := [⟨"output", 65533⟩] }

/-! ### The Topology State Tracker: `self.switches` -/

/-- One entry of `self.switches`: `{'color': .., 'neighbors': .., 'flows': ..}`.
The Python `neighbors` set is modelled as a duplicate-free insertion-ordered
list; `flows` is a dict from neighbor dpid to the flow object sent. -/
structure SwitchRecord where
  color : Nat
  neighbors : List String
  flows : List (String × FlowDoc)
deriving DecidableEq, Repr

/-- The registry `self.switches`: dict from dpid to record, in insertion order. -/
abbrev Tracker := List (String × SwitchRecord)

/-- A switch known to the controller (`self.controller.switches.values()`).
`ofVersion` is the OpenFlow protocol version of the switch's connection;
`update_colors` never reads it (every flow is built as an OpenFlow 1.0
`Flow10` with output port `65533`). -/
structure CtrlSwitch where
  dpid : String
  ofVersion : Nat
deriving DecidableEq, Repr

/-- One reported link (`{'source': .., 'target': ..}`): endpoint interface
identifiers, of which the first 8 colon-separated components form the dpid. -/
structure Link where
  source : String
  target : String
deriving DecidableEq, Repr

/-- The color derivation `int(switch.dpid.replace(':', '')[4:], 16)` (src/main.py line 61). -/
def dpidColor (dpid : String) : Nat :=
  parseHex ((dpid.data.filter (fun c => c ≠ ':')).drop 4)

/-- One iteration of the first loop of `update_colors` (lines 59-66): create
the record if the dpid is new, otherwise reset its `neighbors` to empty. -/
def ensureSwitch (t : Tracker) (dpid : String) : Tracker :=
  match alookup t dpid with
  | none => t ++ [(dpid, ⟨dpidColor dpid, [], []⟩)]
  | some r => aupdate t dpid { r with neighbors := [] }

/-- The first loop of `update_colors` over the controller's switches. -/
def ensurePass : List CtrlSwitch → Tracker → Tracker
  | [], t => t
  | c :: cs, t => ensurePass cs (ensureSwitch t c.dpid)

/-- Lines 69-74: split both endpoints on `':'`; skip the link if either has
fewer than 9 components; otherwise the dpids are the first 8 components
re-joined with `':'`. -/
def resolveLink (l : Link) : Option (String × String) :=
  let source := splitCL ':' l.source.data
  let target := splitCL ':' l.target.data
  if source.length < 9 ∨ target.length < 9 then none
  else some (String.mk (joinColon (source.take 8)),
             String.mk (joinColon (target.take 8)))

/-- Python `set.add`: append if absent. -/
def addNbr (ns : List String) (n : String) : List String :=
  if n ∈ ns then ns else ns ++ [n]

/-- The access `self.switches[dpid]['neighbors'].add(n)`: `none` models the `KeyError`
raised when `dpid` is not a key of `self.switches`. -/
def addNeighbor (t : Tracker) (dpid n : String) : Option Tracker :=
  match alookup t dpid with
  | none => none
  | some r => some (aupdate t dpid { r with neighbors := addNbr r.neighbors n })

/-- Process one reported link (lines 68-76).  The second component is `true`
when a `KeyError` was raised; note the first `add` has already mutated the
source's record when the target turns out to be unknown. -/
def addLink (t : Tracker) (l : Link) : Tracker × Bool :=
  match resolveLink l with
  | none => (t, false)
  | some (dpid_source, dpid_target) =>
    match addNeighbor t dpid_source dpid_target with
    | none => (t, true)
    | some t1 =>
      match addNeighbor t1 dpid_target dpid_source with
      | none => (t1, true)
      | some t2 => (t2, false)

/-- The second loop of `update_colors`: a raised `KeyError` aborts the pass,
leaving the mutations already performed in place. -/
def addLinks : List Link → Tracker → Tracker × Bool
  | [], t => (t, false)
  | l :: ls, t =>
    match addLink t l with
    | (t1, true) => (t1, true)
    | (t1, false) => addLinks ls t1

/-! ### The Synchronization Engine: diff and install (lines 80-109) -/

/-- Result of a pass (or of its install stage): the final registry, the POST
requests issued to the flow manager in order (target switch dpid, neighbor the
flow is for, flow document), the error log entries (dpid, status code) for
non-2xx responses, and whether the pass died with a `KeyError`. -/
structure StepOut where
  tracker : Tracker
  posts : List (String × String × FlowDoc)
  failures : List (String × Nat)
  aborted : Bool
deriving DecidableEq, Repr

/-- The inner loop over `switch_dict['neighbors']` for one switch `dpid`
(lines 82-109).  For a neighbor with no recorded flow the code builds the
document from the neighbor's color, records it in `flows` and only then
POSTs it; a non-2xx status is merely logged.  `self.switches[neighbor]`
raises `KeyError` when the neighbor is unknown.  `inst d n` is the status
code the flow manager returns for that request. -/
def installNeighbors (cf : String) (inst : String → String → Nat)
    (dpid : String) : List String → Tracker → StepOut
  | [], t => ⟨t, [], [], false⟩
  | n :: ns, t =>
    match alookup t dpid with
    | none => ⟨t, [], [], false⟩
    | some r =>
      if (alookup r.flows n).isSome then
        installNeighbors cf inst dpid ns t
      else
        match alookup t n with
        | none => ⟨t, [], [], true⟩
        | some rn =>
          let doc := mkFlowDoc cf (color_to_field rn.color cf)
          let t1 := aupdate t dpid { r with flows := r.flows ++ [(n, doc)] }
          let status := inst dpid n
          let rest := installNeighbors cf inst dpid ns t1
          ⟨rest.tracker, (dpid, n, doc) :: rest.posts,
            (if status / 100 ≠ 2 then [(dpid, status)] else []) ++ rest.failures,
            rest.aborted⟩

/-- The outer loop over `self.switches.items()` (line 80). -/
def installAll (cf : String) (inst : String → String → Nat) :
    List String → Tracker → StepOut
  | [], t => ⟨t, [], [], false⟩
  | d :: ds, t =>
    match alookup t d with
    | none => installAll cf inst ds t
    | some r =>
      let s1 := installNeighbors cf inst d r.neighbors t
      if s1.aborted then s1
      else
        let s2 := installAll cf inst ds s1.tracker
        ⟨s2.tracker, s1.posts ++ s2.posts, s1.failures ++ s2.failures, s2.aborted⟩

/-- The full pass `Main.update_colors(links)` (src/main.py lines 51-109), parameterized by
the configured color field `cf` (`settings.COLOR_FIELD`), the flow manager's
responses `inst`, the controller's switch registry `ctrl` and the previous
state of `self.switches`. -/
def update_colors (cf : String) (inst : String → String → Nat)
    (ctrl : List CtrlSwitch) (links : List Link) (t : Tracker) : StepOut :=
  match addLinks links (ensurePass ctrl t) with
  | (t2, true) => ⟨t2, [], [], true⟩
  | (t2, false) => installAll cf inst (t2.map Prod.fst) t2

/-! ### Association-list lemmas -/

theorem alookup_cons {β : Type} (k : String) (w : β) (xs : List (String × β))
    (d : String) :
    alookup ((k, w) :: xs) d = if k = d then some w else alookup xs d := rfl

theorem aupdate_cons {β : Type} (k : String) (w : β) (xs : List (String × β))
    (d : String) (v : β) :
    aupdate ((k, w) :: xs) d v =
      (if k = d then (d, v) else (k, w)) :: aupdate xs d v := rfl

theorem alookup_aupdate_ne {β : Type} (xs : List (String × β)) (d d' : String)
    (v : β) (h : d' ≠ d) : alookup (aupdate xs d v) d' = alookup xs d' := by
  induction xs with
  | nil => rfl
  | cons kv xs ih =>
    obtain ⟨k, w⟩ := kv
    rw [aupdate_cons]
    by_cases hk : k = d
    · rw [if_pos hk, alookup_cons, alookup_cons,
        if_neg (fun h' => h h'.symm), if_neg (hk ▸ fun h' => h h'.symm)]
      exact ih
    · rw [if_neg hk, alookup_cons, alookup_cons]
      by_cases hkd : k = d'
      · rw [if_pos hkd, if_pos hkd]
      · rw [if_neg hkd, if_neg hkd]
        exact ih

theorem alookup_aupdate_self {β : Type} (xs : List (String × β)) (d : String)
    (v : β) : alookup (aupdate xs d v) d = (alookup xs d).map (fun _ => v) := by
  induction xs with
  | nil => rfl
  | cons kv xs ih =>
    obtain ⟨k, w⟩ := kv
    rw [aupdate_cons]
    by_cases hk : k = d
    · rw [if_pos hk, alookup_cons, alookup_cons, if_pos rfl, if_pos hk]
      rfl
    · rw [if_neg hk, alookup_cons, alookup_cons, if_neg hk, if_neg hk]
      exact ih

theorem aupdate_keys {β : Type} (xs : List (String × β)) (d : String) (v : β) :
    (aupdate xs d v).map Prod.fst = xs.map Prod.fst := by
  induction xs with
  | nil => rfl
  | cons kv xs ih =>
    obtain ⟨k, w⟩ := kv
    rw [aupdate_cons]
    by_cases hk : k = d
    · rw [if_pos hk, List.map_cons, List.map_cons, ih, hk]
    · rw [if_neg hk, List.map_cons, List.map_cons, ih]

theorem alookup_isSome_aupdate {β : Type} (xs : List (String × β))
    (d d' : String) (v : β) :
    (alookup (aupdate xs d v) d').isSome = (alookup xs d').isSome := by
  by_cases h : d' = d
  · subst h; rw [alookup_aupdate_self]; cases alookup xs d' <;> rfl
  · rw [alookup_aupdate_ne _ _ _ _ h]

theorem alookup_eq_none_iff {β : Type} (xs : List (String × β)) (d : String) :
    alookup xs d = none ↔ d ∉ xs.map Prod.fst := by
  induction xs with
  | nil => simp [alookup]
  | cons kv xs ih =>
    obtain ⟨k, w⟩ := kv
    rw [alookup_cons, List.map_cons, List.mem_cons]
    by_cases hk : k = d
    · rw [if_pos hk]
      simp [hk]
    · rw [if_neg hk, ih]
      simp only [not_or]
      constructor
      · exact fun h => ⟨fun h' => hk h'.symm, h⟩
      · exact fun h => h.2

theorem alookup_isSome_iff_mem {β : Type} (xs : List (String × β)) (d : String) :
    (alookup xs d).isSome ↔ d ∈ xs.map Prod.fst := by
  rw [← Decidable.not_not (p := d ∈ xs.map Prod.fst), ← alookup_eq_none_iff]
  cases alookup xs d <;> simp

theorem alookup_append_left {β : Type} (xs ys : List (String × β)) (d : String)
    (v : β) (h : alookup xs d = some v) : alookup (xs ++ ys) d = some v := by
  induction xs with
  | nil => simp [alookup] at h
  | cons kv xs ih =>
    obtain ⟨k, w⟩ := kv
    rw [alookup_cons] at h
    rw [List.cons_append, alookup_cons]
    by_cases hk : k = d
    · rwa [if_pos hk] at h ⊢
    · rw [if_neg hk] at h ⊢
      exact ih h

theorem alookup_append_right {β : Type} (xs ys : List (String × β)) (d : String)
    (h : alookup xs d = none) : alookup (xs ++ ys) d = alookup ys d := by
  induction xs with
  | nil => rfl
  | cons kv xs ih =>
    obtain ⟨k, w⟩ := kv
    rw [alookup_cons] at h
    rw [List.cons_append, alookup_cons]
    by_cases hk : k = d
    · rw [if_pos hk] at h; exact absurd h (by simp)
    · rw [if_neg hk] at h
      rw [if_neg hk]
      exact ih h

theorem alookup_append_notmem_right {β : Type} (xs ys : List (String × β))
    (d : String) (h : ∀ x ∈ ys, x.1 ≠ d) :
    alookup (xs ++ ys) d = alookup xs d := by
  induction xs with
  | nil =>
    rw [List.nil_append]
    show alookup ys d = none
    rw [alookup_eq_none_iff]
    intro hm
    obtain ⟨x, hx, hx1⟩ := List.mem_map.mp hm
    exact h x hx hx1
  | cons kv xs ih =>
    obtain ⟨k, w⟩ := kv
    rw [List.cons_append, alookup_cons, alookup_cons]
    by_cases hk : k = d
    · rw [if_pos hk, if_pos hk]
    · rw [if_neg hk, if_neg hk]
      exact ih

theorem alookup_append_none_left {β : Type} (xs ys : List (String × β))
    (d : String) (h : alookup (xs ++ ys) d = none) : alookup xs d = none := by
  cases hx : alookup xs d with
  | none => rfl
  | some v => rw [alookup_append_left xs ys d v hx] at h; exact absurd h (by simp)

/-- Two association lists with the same duplicate-free key sequence and the
same lookups are equal. -/
theorem assoc_ext {β : Type} (xs ys : List (String × β))
    (hkeys : xs.map Prod.fst = ys.map Prod.fst)
    (hnd : (xs.map Prod.fst).Nodup)
    (hlook : ∀ d, alookup xs d = alookup ys d) : xs = ys := by
  induction xs generalizing ys with
  | nil => cases ys with
    | nil => rfl
    | cons y ys => simp at hkeys
  | cons kv xs ih =>
    obtain ⟨k, w⟩ := kv
    cases ys with
    | nil => simp at hkeys
    | cons kv' ys =>
      obtain ⟨k', w'⟩ := kv'
      simp only [List.map_cons, List.cons.injEq] at hkeys
      obtain ⟨hk, htl⟩ := hkeys
      subst hk
      have hw : w = w' := by
        have hl := hlook k
        rw [alookup_cons, alookup_cons, if_pos rfl, if_pos rfl] at hl
        exact Option.some.inj hl
      subst hw
      simp only [List.map_cons, List.nodup_cons] at hnd
      have hxs : xs = ys := by
        refine ih ys htl hnd.2 (fun d => ?_)
        by_cases hd : d = k
        · subst hd
          rw [(alookup_eq_none_iff xs d).mpr hnd.1,
              (alookup_eq_none_iff ys d).mpr (htl ▸ hnd.1)]
        · have hl := hlook d
          rwa [alookup_cons, alookup_cons, if_neg (fun h => hd h.symm),
            if_neg (fun h => hd h.symm)] at hl
      rw [hxs]

/-! ### Neighbor-set lemmas -/

/-- Folding `set.add` over a list of additions. -/
def addNbrs : List String → List String → List String
  | ns, [] => ns
  | ns, a :: as' => addNbrs (addNbr ns a) as'

theorem mem_addNbr (ns : List String) (a x : String) :
    x ∈ addNbr ns a ↔ x ∈ ns ∨ x = a := by
  unfold addNbr
  by_cases h : a ∈ ns
  · rw [if_pos h]
    constructor
    · exact Or.inl
    · rintro (hx | rfl)
      · exact hx
      · exact h
  · rw [if_neg h]; simp

theorem mem_addNbrs (ns as : List String) (x : String) :
    x ∈ addNbrs ns as ↔ x ∈ ns ∨ x ∈ as := by
  induction as generalizing ns with
  | nil => simp [addNbrs]
  | cons a as ih =>
    simp only [addNbrs, ih, mem_addNbr, List.mem_cons]
    tauto

theorem addNbrs_eq_self (ns as : List String) (h : ∀ a ∈ as, a ∈ ns) :
    addNbrs ns as = ns := by
  induction as with
  | nil => rfl
  | cons a as ih =>
    have ha : a ∈ ns := h a (List.mem_cons_self a as)
    simp only [addNbrs, addNbr, if_pos ha]
    exact ih (fun b hb => h b (List.mem_cons_of_mem a hb))

theorem addNbrs_idem (ns as : List String) :
    addNbrs (addNbrs ns as) as = addNbrs ns as :=
  addNbrs_eq_self _ _ (fun a ha => (mem_addNbrs ns as a).mpr (Or.inr ha))

theorem addNbrs_append (ns : List String) (xs ys : List String) :
    addNbrs ns (xs ++ ys) = addNbrs (addNbrs ns xs) ys := by
  induction xs generalizing ns with
  | nil => rfl
  | cons x xs ih => simp only [List.cons_append, addNbrs]; exact ih (addNbr ns x)

/-! ### `ensurePass` characterization (lines 59-66) -/

theorem keys_eq_lookup_isSome {β : Type} (xs ys : List (String × β))
    (h : xs.map Prod.fst = ys.map Prod.fst) (d : String) :
    (alookup xs d).isSome ↔ (alookup ys d).isSome := by
  rw [alookup_isSome_iff_mem, alookup_isSome_iff_mem, h]

theorem ensureSwitch_lookup_ne (t : Tracker) (c d : String) (h : d ≠ c) :
    alookup (ensureSwitch t c) d = alookup t d := by
  unfold ensureSwitch
  cases h0 : alookup t c with
  | none =>
    exact alookup_append_notmem_right _ _ _ (by simpa using fun h' => h h'.symm)
  | some r => exact alookup_aupdate_ne _ _ _ _ h

theorem ensureSwitch_lookup_self_none (t : Tracker) (c : String)
    (h : alookup t c = none) :
    alookup (ensureSwitch t c) c = some ⟨dpidColor c, [], []⟩ := by
  unfold ensureSwitch
  rw [h, alookup_append_right _ _ _ h, alookup_cons, if_pos rfl]

theorem ensureSwitch_lookup_self_some (t : Tracker) (c : String)
    (r : SwitchRecord) (h : alookup t c = some r) :
    alookup (ensureSwitch t c) c = some { r with neighbors := [] } := by
  unfold ensureSwitch
  rw [h, alookup_aupdate_self, h]
  rfl

theorem ensureSwitch_isSome_mono (t : Tracker) (c d : String)
    (h : (alookup t d).isSome) : (alookup (ensureSwitch t c) d).isSome := by
  unfold ensureSwitch
  cases h0 : alookup t c with
  | none =>
    obtain ⟨r, hr⟩ := Option.isSome_iff_exists.mp h
    rw [alookup_append_left _ _ _ _ hr]
    rfl
  | some r => rw [alookup_isSome_aupdate]; exact h

theorem ensurePass_lookup_notmem (ctrl : List CtrlSwitch) (t : Tracker)
    (d : String) (h : d ∉ ctrl.map CtrlSwitch.dpid) :
    alookup (ensurePass ctrl t) d = alookup t d := by
  induction ctrl generalizing t with
  | nil => rfl
  | cons c cs ih =>
    simp only [List.map_cons, List.mem_cons, not_or] at h
    show alookup (ensurePass cs (ensureSwitch t c.dpid)) d = _
    rw [ih _ h.2, ensureSwitch_lookup_ne _ _ _ h.1]

/-- Effect of one `ensureSwitch` step on the record of the dpid it ensures. -/
theorem ensureSwitch_lookup_self (t : Tracker) (d : String) :
    ∃ r1, alookup (ensureSwitch t d) d = some r1 ∧ r1.neighbors = [] ∧
      ((∃ r, alookup t d = some r ∧ r1.color = r.color ∧ r1.flows = r.flows) ∨
       (alookup t d = none ∧ r1 = ⟨dpidColor d, [], []⟩)) := by
  cases h0 : alookup t d with
  | none =>
    exact ⟨⟨dpidColor d, [], []⟩, ensureSwitch_lookup_self_none t d h0, rfl,
      Or.inr ⟨rfl, rfl⟩⟩
  | some r =>
    exact ⟨{ r with neighbors := [] }, ensureSwitch_lookup_self_some t d r h0,
      rfl, Or.inl ⟨r, rfl, rfl, rfl⟩⟩

theorem ensurePass_lookup_mem (ctrl : List CtrlSwitch) (t : Tracker)
    (d : String) (h : d ∈ ctrl.map CtrlSwitch.dpid) :
    ∃ r', alookup (ensurePass ctrl t) d = some r' ∧ r'.neighbors = [] ∧
      ((∃ r, alookup t d = some r ∧ r'.color = r.color ∧ r'.flows = r.flows) ∨
       (alookup t d = none ∧ r' = ⟨dpidColor d, [], []⟩)) := by
  induction ctrl generalizing t with
  | nil => simp at h
  | cons c cs ih =>
    show ∃ r', alookup (ensurePass cs (ensureSwitch t c.dpid)) d = some r' ∧ _
    by_cases hd : d = c.dpid
    · -- this step ensures `d` itself
      subst hd
      obtain ⟨r1, hr1, hn1, hrel1⟩ := ensureSwitch_lookup_self t c.dpid
      by_cases hcs : c.dpid ∈ cs.map CtrlSwitch.dpid
      · obtain ⟨r', hr', hn', hrel'⟩ := ih (ensureSwitch t c.dpid) hcs
        refine ⟨r', hr', hn', ?_⟩
        rcases hrel' with ⟨rr, hrr, hc, hf⟩ | ⟨hnone, _⟩
        · rw [hr1] at hrr
          cases Option.some.inj hrr
          rcases hrel1 with ⟨r, hr, hc1, hf1⟩ | ⟨hnone1, heq1⟩
          · exact Or.inl ⟨r, hr, hc.trans hc1, hf.trans hf1⟩
          · refine Or.inr ⟨hnone1, ?_⟩
            have hr'eta : r' = ⟨r'.color, r'.neighbors, r'.flows⟩ := rfl
            rw [hr'eta, hn', hc, hf, heq1]
        · rw [hr1] at hnone
          exact absurd hnone (by simp)
      · rw [ensurePass_lookup_notmem cs _ c.dpid hcs]
        exact ⟨r1, hr1, hn1, hrel1⟩
    · -- the head step leaves `d` untouched
      have hcs : d ∈ cs.map CtrlSwitch.dpid := by
        simpa [hd] using h
      obtain ⟨r', hr', hn', hrel'⟩ := ih (ensureSwitch t c.dpid) hcs
      rw [ensureSwitch_lookup_ne t _ d hd] at hrel'
      exact ⟨r', hr', hn', hrel'⟩

theorem ensurePass_isSome_mono (ctrl : List CtrlSwitch) (t : Tracker)
    (d : String) (h : (alookup t d).isSome) :
    (alookup (ensurePass ctrl t) d).isSome := by
  induction ctrl generalizing t with
  | nil => exact h
  | cons c cs ih => exact ih _ (ensureSwitch_isSome_mono t c.dpid d h)

theorem ensurePass_keys_of_known (ctrl : List CtrlSwitch) (t : Tracker)
    (h : ∀ c ∈ ctrl, (alookup t c.dpid).isSome) :
    (ensurePass ctrl t).map Prod.fst = t.map Prod.fst := by
  induction ctrl generalizing t with
  | nil => rfl
  | cons c cs ih =>
    have hc := h c (List.mem_cons_self c cs)
    obtain ⟨r, hr⟩ := Option.isSome_iff_exists.mp hc
    have hstep : ensureSwitch t c.dpid = aupdate t c.dpid { r with neighbors := [] } := by
      unfold ensureSwitch
      rw [hr]
    show (ensurePass cs (ensureSwitch t c.dpid)).map Prod.fst = _
    rw [ih _ (fun c' hc' => by
      rw [hstep, alookup_isSome_aupdate]
      exact h c' (List.mem_cons_of_mem c hc')), hstep, aupdate_keys]

theorem ensurePass_nodup (ctrl : List CtrlSwitch) (t : Tracker)
    (h : (t.map Prod.fst).Nodup) : ((ensurePass ctrl t).map Prod.fst).Nodup := by
  induction ctrl generalizing t with
  | nil => exact h
  | cons c cs ih =>
    refine ih _ ?_
    unfold ensureSwitch
    cases h0 : alookup t c.dpid with
    | none =>
      rw [List.map_append]
      simp only [List.map_cons, List.map_nil]
      rw [List.nodup_append]
      exact ⟨h, List.nodup_singleton _,
        by simpa using fun hmem => (alookup_eq_none_iff t c.dpid).mp h0 hmem⟩
    | some r => rw [aupdate_keys]; exact h

/-! ### `addLinks` characterization (lines 68-76) -/

/-- The neighbor entries one processed link contributes to the record of `d`
(both `add` calls of lines 75-76, in execution order). -/
def linkAdds (d : String) (l : Link) : List String :=
  match resolveLink l with
  | none => []
  | some (s, tg) => (if s = d then [tg] else []) ++ (if tg = d then [s] else [])

/-- All neighbor entries a link list contributes to the record of `d`. -/
def linkAddsAll (d : String) : List Link → List String
  | [] => []
  | l :: ls => linkAdds d l ++ linkAddsAll d ls

theorem addNeighbor_none_iff (t : Tracker) (a b : String) :
    addNeighbor t a b = none ↔ alookup t a = none := by
  unfold addNeighbor
  cases alookup t a <;> simp

theorem addNeighbor_eq (t : Tracker) (a b : String) (r : SwitchRecord)
    (h : alookup t a = some r) :
    addNeighbor t a b =
      some (aupdate t a { r with neighbors := addNbr r.neighbors b }) := by
  unfold addNeighbor
  rw [h]

theorem addLink_of_resolve_none (t : Tracker) (l : Link)
    (h : resolveLink l = none) : addLink t l = (t, false) := by
  unfold addLink
  rw [h]

theorem addLink_of_resolve_some (t : Tracker) (l : Link) (s tg : String)
    (h : resolveLink l = some (s, tg)) :
    addLink t l =
      match addNeighbor t s tg with
      | none => (t, true)
      | some t1 =>
        match addNeighbor t1 tg s with
        | none => (t1, true)
        | some t2 => (t2, false) := by
  unfold addLink
  rw [h]

theorem addLinks_cons (l : Link) (ls : List Link) (t : Tracker) :
    addLinks (l :: ls) t =
      match addLink t l with
      | (t1, true) => (t1, true)
      | (t1, false) => addLinks ls t1 := rfl

theorem addLink_keys (t : Tracker) (l : Link) :
    (addLink t l).1.map Prod.fst = t.map Prod.fst := by
  cases hres : resolveLink l with
  | none => rw [addLink_of_resolve_none t l hres]
  | some p =>
    obtain ⟨s, tg⟩ := p
    rw [addLink_of_resolve_some t l s tg hres]
    cases hs : alookup t s with
    | none =>
      rw [(addNeighbor_none_iff t s tg).mpr hs]
    | some rs =>
      rw [addNeighbor_eq t s tg rs hs]
      simp only []
      cases htg : alookup (aupdate t s { rs with neighbors := addNbr rs.neighbors tg }) tg with
      | none =>
        rw [(addNeighbor_none_iff _ tg s).mpr htg]
        exact aupdate_keys _ _ _
      | some rtg =>
        rw [addNeighbor_eq _ tg s rtg htg]
        simp only []
        rw [aupdate_keys, aupdate_keys]

theorem addLinks_keys (ls : List Link) (t : Tracker) :
    (addLinks ls t).1.map Prod.fst = t.map Prod.fst := by
  induction ls generalizing t with
  | nil => rfl
  | cons l ls ih =>
    rw [addLinks_cons]
    cases hstep : addLink t l with
    | mk t1 b =>
      have hk : t1.map Prod.fst = t.map Prod.fst := by
        have := addLink_keys t l
        rwa [hstep] at this
      cases b with
      | true => simpa using hk
      | false =>
        simp only []
        rw [ih t1, hk]

/-- Effect of one successfully processed link on each record: exactly the
`linkAdds` entries are folded into its neighbor set. -/
theorem addLink_ok_lookup (t t' : Tracker) (l : Link)
    (h : addLink t l = (t', false)) (d : String) (r : SwitchRecord)
    (hr : alookup t d = some r) :
    alookup t' d = some { r with neighbors := addNbrs r.neighbors (linkAdds d l) } := by
  cases hres : resolveLink l with
  | none =>
    rw [addLink_of_resolve_none t l hres] at h
    cases h
    rw [hr]
    unfold linkAdds
    rw [hres]
    rfl
  | some p =>
    obtain ⟨s, tg⟩ := p
    rw [addLink_of_resolve_some t l s tg hres] at h
    unfold linkAdds
    rw [hres]
    simp only []
    cases hs : alookup t s with
    | none =>
      rw [(addNeighbor_none_iff t s tg).mpr hs] at h
      exact absurd (congrArg Prod.snd h) (by simp)
    | some rs =>
      rw [addNeighbor_eq t s tg rs hs] at h
      simp only [] at h
      cases htg : alookup (aupdate t s { rs with neighbors := addNbr rs.neighbors tg }) tg with
      | none =>
        rw [(addNeighbor_none_iff _ tg s).mpr htg] at h
        exact absurd (congrArg Prod.snd h) (by simp)
      | some rtg =>
        rw [addNeighbor_eq _ tg s rtg htg] at h
        simp only [] at h
        have ht' : t' =
            aupdate (aupdate t s { rs with neighbors := addNbr rs.neighbors tg })
              tg { rtg with neighbors := addNbr rtg.neighbors s } :=
          (congrArg Prod.fst h).symm
        subst ht'
        by_cases hds : s = d
        · subst hds
          have hrs : rs = r := Option.some.inj (hs.symm.trans hr)
          subst hrs
          by_cases hdt : tg = s
          · subst hdt
            have h1 : alookup (aupdate t tg { rs with neighbors := addNbr rs.neighbors tg }) tg
                = some { rs with neighbors := addNbr rs.neighbors tg } := by
              rw [alookup_aupdate_self, hs]
              rfl
            have hrtg : rtg = { rs with neighbors := addNbr rs.neighbors tg } :=
              Option.some.inj (htg.symm.trans h1)
            subst hrtg
            rw [alookup_aupdate_self, htg]
            simp [addNbrs]
          · rw [if_neg hdt]
            rw [alookup_aupdate_ne _ _ _ _ (fun hh => hdt hh.symm), alookup_aupdate_self, hs]
            simp [addNbrs]
        · by_cases hdt : tg = d
          · subst hdt
            rw [if_neg hds]
            have h1 : alookup (aupdate t s { rs with neighbors := addNbr rs.neighbors tg }) tg
                = alookup t tg :=
              alookup_aupdate_ne _ _ _ _ (fun hh => hds hh.symm)
            have hrtg : rtg = r := Option.some.inj (htg.symm.trans (h1.trans hr))
            subst hrtg
            rw [alookup_aupdate_self, htg]
            simp [addNbrs]
          · rw [if_neg hds, if_neg hdt]
            rw [alookup_aupdate_ne _ _ _ _ (fun hh => hdt hh.symm),
              alookup_aupdate_ne _ _ _ _ (fun hh => hds hh.symm), hr]
            simp [addNbrs]

/-- Effect of a completed (non-aborted) link pass on each record. -/
theorem addLinks_ok_lookup (ls : List Link) (t t' : Tracker)
    (h : addLinks ls t = (t', false)) (d : String) (r : SwitchRecord)
    (hr : alookup t d = some r) :
    alookup t' d = some { r with neighbors := addNbrs r.neighbors (linkAddsAll d ls) } := by
  induction ls generalizing t r with
  | nil =>
    cases h
    rw [hr]
    show _ = some { r with neighbors := r.neighbors }
    rfl
  | cons l ls ih =>
    rw [addLinks_cons] at h
    cases hstep : addLink t l with
    | mk t1 b =>
      cases b with
      | true => rw [hstep] at h; exact absurd (congrArg Prod.snd h) (by simp)
      | false =>
        rw [hstep] at h
        simp only [] at h
        have h1 := addLink_ok_lookup t t1 l hstep d r hr
        have h2 := ih t1 h _ h1
        rw [h2]
        show some _ = some _
        congr 2
        show addNbrs (addNbrs r.neighbors (linkAdds d l)) (linkAddsAll d ls)
          = addNbrs r.neighbors (linkAdds d l ++ linkAddsAll d ls)
        rw [addNbrs_append]

/-- A completed link pass only processed links whose resolved endpoints were
both known (the `KeyError` accesses succeeded). -/
theorem addLinks_ok_endpoints (ls : List Link) (t t' : Tracker)
    (h : addLinks ls t = (t', false)) (l : Link) (hl : l ∈ ls) (s tg : String)
    (hres : resolveLink l = some (s, tg)) :
    (alookup t s).isSome ∧ (alookup t tg).isSome := by
  induction ls generalizing t with
  | nil => simp at hl
  | cons l0 ls ih =>
    rw [addLinks_cons] at h
    cases hstep : addLink t l0 with
    | mk t1 b =>
      cases b with
      | true => rw [hstep] at h; exact absurd (congrArg Prod.snd h) (by simp)
      | false =>
        rw [hstep] at h
        simp only [] at h
        have hkeys : t1.map Prod.fst = t.map Prod.fst := by
          have := addLink_keys t l0
          rwa [hstep] at this
        rcases List.mem_cons.mp hl with rfl | hmem
        · -- the head link itself: both addNeighbor calls succeeded
          rw [addLink_of_resolve_some t l s tg hres] at hstep
          cases hs : alookup t s with
          | none =>
            rw [(addNeighbor_none_iff t s tg).mpr hs] at hstep
            exact absurd (congrArg Prod.snd hstep) (by simp)
          | some rs =>
            rw [addNeighbor_eq t s tg rs hs] at hstep
            simp only [] at hstep
            cases htg : alookup (aupdate t s { rs with neighbors := addNbr rs.neighbors tg }) tg with
            | none =>
              rw [(addNeighbor_none_iff _ tg s).mpr htg] at hstep
              exact absurd (congrArg Prod.snd hstep) (by simp)
            | some rtg =>
              refine ⟨rfl, ?_⟩
              have hsm : (alookup (aupdate t s { rs with neighbors := addNbr rs.neighbors tg }) tg).isSome := by
                rw [htg]; rfl
              rwa [alookup_isSome_aupdate] at hsm
        · have hboth := ih t1 h hmem
          exact ⟨(keys_eq_lookup_isSome t1 t hkeys s).mp hboth.1,
            (keys_eq_lookup_isSome t1 t hkeys tg).mp hboth.2⟩

/-- Conversely, a link pass in which every resolved endpoint is known does not
abort. -/
theorem addLinks_noabort (ls : List Link) (t : Tracker)
    (h : ∀ l ∈ ls, ∀ s tg, resolveLink l = some (s, tg) →
      (alookup t s).isSome ∧ (alookup t tg).isSome) :
    (addLinks ls t).2 = false := by
  induction ls generalizing t with
  | nil => rfl
  | cons l ls ih =>
    rw [addLinks_cons]
    cases hres : resolveLink l with
    | none =>
      rw [addLink_of_resolve_none t l hres]
      simp only []
      exact ih t (fun l' hl' => h l' (List.mem_cons_of_mem l hl'))
    | some p =>
      obtain ⟨s, tg⟩ := p
      obtain ⟨hs, htg⟩ := h l (List.mem_cons_self l ls) s tg hres
      obtain ⟨rs, hrs⟩ := Option.isSome_iff_exists.mp hs
      rw [addLink_of_resolve_some t l s tg hres, addNeighbor_eq t s tg rs hrs]
      simp only []
      have htg1 : (alookup (aupdate t s { rs with neighbors := addNbr rs.neighbors tg }) tg).isSome := by
        rwa [alookup_isSome_aupdate]
      obtain ⟨rtg, hrtg⟩ := Option.isSome_iff_exists.mp htg1
      rw [addNeighbor_eq _ tg s rtg hrtg]
      simp only []
      refine ih _ (fun l' hl' s' tg' hres' => ?_)
      have hthis := h l' (List.mem_cons_of_mem l hl') s' tg' hres'
      constructor
      · rw [alookup_isSome_aupdate, alookup_isSome_aupdate]
        exact hthis.1
      · rw [alookup_isSome_aupdate, alookup_isSome_aupdate]
        exact hthis.2

/-! ### `installAll` characterization (lines 80-109) -/

theorem installNeighbors_nil (cf : String) (inst : String → String → Nat)
    (dpid : String) (t : Tracker) :
    installNeighbors cf inst dpid [] t = ⟨t, [], [], false⟩ := rfl

theorem installNeighbors_cons (cf : String) (inst : String → String → Nat)
    (dpid n : String) (ns : List String) (t : Tracker) :
    installNeighbors cf inst dpid (n :: ns) t =
      match alookup t dpid with
      | none => ⟨t, [], [], false⟩
      | some r =>
        if (alookup r.flows n).isSome then
          installNeighbors cf inst dpid ns t
        else
          match alookup t n with
          | none => ⟨t, [], [], true⟩
          | some rn =>
            let doc := mkFlowDoc cf (color_to_field rn.color cf)
            let t1 := aupdate t dpid { r with flows := r.flows ++ [(n, doc)] }
            let status := inst dpid n
            let rest := installNeighbors cf inst dpid ns t1
            ⟨rest.tracker, (dpid, n, doc) :: rest.posts,
              (if status / 100 ≠ 2 then [(dpid, status)] else []) ++ rest.failures,
              rest.aborted⟩ := rfl

theorem installAll_nil (cf : String) (inst : String → String → Nat)
    (t : Tracker) : installAll cf inst [] t = ⟨t, [], [], false⟩ := rfl

theorem installAll_cons (cf : String) (inst : String → String → Nat)
    (d : String) (ds : List String) (t : Tracker) :
    installAll cf inst (d :: ds) t =
      match alookup t d with
      | none => installAll cf inst ds t
      | some r =>
        let s1 := installNeighbors cf inst d r.neighbors t
        if s1.aborted then s1
        else
          let s2 := installAll cf inst ds s1.tracker
          ⟨s2.tracker, s1.posts ++ s2.posts, s1.failures ++ s2.failures,
            s2.aborted⟩ := rfl

/-- The inner install loop for `d` never touches another switch's record. -/
theorem installNeighbors_lookup_ne (cf : String) (inst : String → String → Nat)
    (d : String) (ns : List String) (t : Tracker) (d' : String) (h : d' ≠ d) :
    alookup (installNeighbors cf inst d ns t).tracker d' = alookup t d' := by
  induction ns generalizing t with
  | nil => rfl
  | cons n ns ih =>
    rw [installNeighbors_cons]
    cases h0 : alookup t d with
    | none => rfl
    | some r =>
      simp only []
      by_cases hf : (alookup r.flows n).isSome
      · rw [if_pos hf]
        exact ih t
      · rw [if_neg hf]
        cases hn : alookup t n with
        | none => rfl
        | some rn =>
          simp only []
          rw [ih _, alookup_aupdate_ne _ _ _ _ h]

theorem installNeighbors_keys (cf : String) (inst : String → String → Nat)
    (d : String) (ns : List String) (t : Tracker) :
    (installNeighbors cf inst d ns t).tracker.map Prod.fst = t.map Prod.fst := by
  induction ns generalizing t with
  | nil => rfl
  | cons n ns ih =>
    rw [installNeighbors_cons]
    cases h0 : alookup t d with
    | none => rfl
    | some r =>
      simp only []
      by_cases hf : (alookup r.flows n).isSome
      · rw [if_pos hf]
        exact ih t
      · rw [if_neg hf]
        cases hn : alookup t n with
        | none => rfl
        | some rn =>
          simp only []
          rw [ih _, aupdate_keys]

/-- The inner install loop only appends to `d`'s `flows`, and only entries for
neighbors in the processed list that had no flow yet. -/
theorem installNeighbors_shape (cf : String) (inst : String → String → Nat)
    (d : String) (ns : List String) (t : Tracker) (r : SwitchRecord)
    (hr : alookup t d = some r) :
    ∃ new, alookup (installNeighbors cf inst d ns t).tracker d =
        some { r with flows := r.flows ++ new } ∧
      ∀ x ∈ new, x.1 ∈ ns ∧ alookup r.flows x.1 = none := by
  induction ns generalizing t r with
  | nil =>
    refine ⟨[], ?_, by simp⟩
    rw [installNeighbors_nil]
    simp only []
    rw [hr, List.append_nil]
  | cons n ns ih =>
    rw [installNeighbors_cons, hr]
    simp only []
    by_cases hf : (alookup r.flows n).isSome
    · rw [if_pos hf]
      obtain ⟨new, hnew, hcond⟩ := ih t r hr
      exact ⟨new, hnew, fun x hx =>
        ⟨List.mem_cons_of_mem n (hcond x hx).1, (hcond x hx).2⟩⟩
    · rw [if_neg hf]
      cases hn : alookup t n with
      | none =>
        refine ⟨[], ?_, by simp⟩
        simp only []
        rw [hr, List.append_nil]
      | some rn =>
        simp only []
        have hfn : alookup r.flows n = none := by
          cases hx : alookup r.flows n with
          | none => rfl
          | some v => rw [hx] at hf; exact absurd rfl hf
        have h1 : alookup
            (aupdate t d { r with flows := r.flows ++ [(n, mkFlowDoc cf (color_to_field rn.color cf))] }) d
            = some { r with flows := r.flows ++ [(n, mkFlowDoc cf (color_to_field rn.color cf))] } := by
          rw [alookup_aupdate_self, hr]
          rfl
        obtain ⟨new', hnew', hcond'⟩ := ih _ _ h1
        refine ⟨(n, mkFlowDoc cf (color_to_field rn.color cf)) :: new', ?_, ?_⟩
        · rw [hnew']
          show some _ = some _
          congr 2
          simp
        · intro x hx0
          rcases List.mem_cons.mp hx0 with rfl | hx
          · exact ⟨List.mem_cons_self n ns, hfn⟩
          · refine ⟨List.mem_cons_of_mem n (hcond' x hx).1, ?_⟩
            exact alookup_append_none_left _ _ _ (hcond' x hx).2

theorem installAll_keys (cf : String) (inst : String → String → Nat)
    (ds : List String) (t : Tracker) :
    (installAll cf inst ds t).tracker.map Prod.fst = t.map Prod.fst := by
  induction ds generalizing t with
  | nil => rfl
  | cons d ds ih =>
    rw [installAll_cons]
    cases h0 : alookup t d with
    | none => exact ih t
    | some r =>
      simp only []
      by_cases hab : (installNeighbors cf inst d r.neighbors t).aborted
      · rw [if_pos hab]
        exact installNeighbors_keys cf inst d r.neighbors t
      · rw [if_neg hab]
        simp only []
        rw [ih _, installNeighbors_keys]

/-- The install stage only appends to `flows`, and only entries for current
neighbors that had no flow yet; colors and neighbor sets are untouched. -/
theorem installAll_shape (cf : String) (inst : String → String → Nat)
    (ds : List String) (t : Tracker) (d : String) (r : SwitchRecord)
    (hr : alookup t d = some r) :
    ∃ new, alookup (installAll cf inst ds t).tracker d =
        some { r with flows := r.flows ++ new } ∧
      ∀ x ∈ new, x.1 ∈ r.neighbors ∧ alookup r.flows x.1 = none := by
  induction ds generalizing t r with
  | nil =>
    refine ⟨[], ?_, by simp⟩
    rw [installAll_nil]
    simp only []
    rw [hr, List.append_nil]
  | cons d0 ds ih =>
    rw [installAll_cons]
    cases h0 : alookup t d0 with
    | none => exact ih t r hr
    | some r0 =>
      simp only []
      by_cases hab : (installNeighbors cf inst d0 r0.neighbors t).aborted
      · rw [if_pos hab]
        by_cases hd : d = d0
        · subst hd
          have hrr : r0 = r := Option.some.inj (h0.symm.trans hr)
          subst hrr
          obtain ⟨new, hnew, hcond⟩ :=
            installNeighbors_shape cf inst d r0.neighbors t r0 hr
          exact ⟨new, hnew, hcond⟩
        · refine ⟨[], ?_, by simp⟩
          rw [installNeighbors_lookup_ne cf inst d0 _ t d hd, hr, List.append_nil]
      · rw [if_neg hab]
        simp only []
        by_cases hd : d = d0
        · subst hd
          have hrr : r0 = r := Option.some.inj (h0.symm.trans hr)
          subst hrr
          obtain ⟨new1, hnew1, hcond1⟩ :=
            installNeighbors_shape cf inst d r0.neighbors t r0 hr
          obtain ⟨new2, hnew2, hcond2⟩ := ih _ _ hnew1
          refine ⟨new1 ++ new2, ?_, ?_⟩
          · rw [hnew2]
            show some _ = some _
            congr 2
            simp
          · intro x hx
            rcases List.mem_append.mp hx with hx1 | hx2
            · exact hcond1 x hx1
            · refine ⟨(hcond2 x hx2).1, ?_⟩
              exact alookup_append_none_left _ _ _ (hcond2 x hx2).2
        · have h1 : alookup (installNeighbors cf inst d0 r0.neighbors t).tracker d = some r :=
            (installNeighbors_lookup_ne cf inst d0 _ t d hd).trans hr
          exact ih _ _ h1

/-- After a completed inner loop, every processed neighbor has a flow entry in
`d`'s record. -/
theorem installNeighbors_covers (cf : String) (inst : String → String → Nat)
    (d : String) (ns : List String) (t : Tracker)
    (hab : (installNeighbors cf inst d ns t).aborted = false)
    (r' : SwitchRecord)
    (hr' : alookup (installNeighbors cf inst d ns t).tracker d = some r')
    (n : String) (hn : n ∈ ns) : (alookup r'.flows n).isSome := by
  induction ns generalizing t with
  | nil => simp at hn
  | cons n0 ns ih =>
    rw [installNeighbors_cons] at hab hr'
    cases h0 : alookup t d with
    | none =>
      rw [h0] at hr'
      simp only [] at hr'
      exact absurd (h0.symm.trans hr') (by simp)
    | some r =>
      rw [h0] at hab hr'
      simp only [] at hab hr'
      by_cases hf : (alookup r.flows n0).isSome
      · rw [if_pos hf] at hab hr'
        rcases List.mem_cons.mp hn with rfl | hmem
        · obtain ⟨new, hnew, _⟩ := installNeighbors_shape cf inst d ns t r h0
          rw [hnew] at hr'
          cases Option.some.inj hr'
          obtain ⟨v, hv⟩ := Option.isSome_iff_exists.mp hf
          rw [show alookup ({ r with flows := r.flows ++ new } : SwitchRecord).flows n = some v from
            alookup_append_left _ _ _ _ hv]
          rfl
        · exact ih t hab hr' hmem
      · rw [if_neg hf] at hab hr'
        cases hn0 : alookup t n0 with
        | none =>
          rw [hn0] at hab
          simp at hab
        | some rn =>
          rw [hn0] at hab hr'
          simp only [] at hab hr'
          have hfn : alookup r.flows n0 = none := by
            cases hx : alookup r.flows n0 with
            | none => rfl
            | some v => rw [hx] at hf; exact absurd rfl hf
          have h1 : alookup
              (aupdate t d { r with flows := r.flows ++ [(n0, mkFlowDoc cf (color_to_field rn.color cf))] }) d
              = some { r with flows := r.flows ++ [(n0, mkFlowDoc cf (color_to_field rn.color cf))] } := by
            rw [alookup_aupdate_self, h0]
            rfl
          rcases List.mem_cons.mp hn with rfl | hmem
          · obtain ⟨new, hnew, _⟩ := installNeighbors_shape cf inst d ns _ _ h1
            rw [hnew] at hr'
            cases Option.some.inj hr'
            have hleft : alookup (r.flows ++ [(n, mkFlowDoc cf (color_to_field rn.color cf))]) n
                = some (mkFlowDoc cf (color_to_field rn.color cf)) := by
              rw [alookup_append_right _ _ _ hfn, alookup_cons, if_pos rfl]
            rw [show alookup _ n = some (mkFlowDoc cf (color_to_field rn.color cf)) from
              alookup_append_left _ _ _ _ hleft]
            rfl
          · exact ih _ hab hr' hmem

/-- After a completed install stage, every neighbor of every processed switch
has a flow entry. -/
theorem installAll_covers (cf : String) (inst : String → String → Nat)
    (ds : List String) (t : Tracker)
    (hab : (installAll cf inst ds t).aborted = false)
    (d : String) (hd : d ∈ ds) (r' : SwitchRecord)
    (hr' : alookup (installAll cf inst ds t).tracker d = some r')
    (n : String) (hn : n ∈ r'.neighbors) : (alookup r'.flows n).isSome := by
  induction ds generalizing t with
  | nil => simp at hd
  | cons d0 ds ih =>
    rw [installAll_cons] at hab hr'
    cases h0 : alookup t d0 with
    | none =>
      rw [h0] at hab hr'
      rcases List.mem_cons.mp hd with rfl | hmem
      · have : alookup (installAll cf inst ds t).tracker d = none := by
          rw [alookup_eq_none_iff, installAll_keys]
          exact (alookup_eq_none_iff t d).mp h0
        rw [this] at hr'
        exact absurd hr' (by simp)
      · exact ih t hab hmem hr'
    | some r0 =>
      rw [h0] at hab hr'
      simp only [] at hab hr'
      by_cases hab1 : (installNeighbors cf inst d0 r0.neighbors t).aborted
      · rw [if_pos hab1] at hab
        rw [hab1] at hab
        exact absurd hab (by simp)
      · rw [if_neg hab1] at hab hr'
        simp only [] at hab hr'
        rcases List.mem_cons.mp hd with rfl | hmem
        · -- record of `d` after the inner loop, then through the rest
          have habF : (installNeighbors cf inst d r0.neighbors t).aborted = false := by
            cases hx : (installNeighbors cf inst d r0.neighbors t).aborted
            · rfl
            · exact absurd hx hab1
          obtain ⟨new1, hnew1, _⟩ :=
            installNeighbors_shape cf inst d r0.neighbors t r0 h0
          obtain ⟨new2, hnew2, hcond2⟩ := installAll_shape cf inst ds _ d _ hnew1
          rw [hnew2] at hr'
          cases Option.some.inj hr'
          -- hn is membership in the (unchanged) neighbor list of r0
          have hn0 : n ∈ r0.neighbors := hn
          have hcov := installNeighbors_covers cf inst d r0.neighbors t habF
            _ hnew1 n hn0
          obtain ⟨v, hv⟩ := Option.isSome_iff_exists.mp hcov
          have hv' : alookup (({ r0 with flows := r0.flows ++ new1 } : SwitchRecord).flows ++ new2) n = some v :=
            alookup_append_left _ _ _ _ hv
          show (alookup (({ r0 with flows := r0.flows ++ new1 } : SwitchRecord).flows ++ new2) n).isSome
          rw [hv']
          rfl
        · exact ih _ hab hmem hr'

/-- If every neighbor of every record already has a flow entry, the install
stage is a no-op: no posts, no state change. -/
theorem installNeighbors_noop (cf : String) (inst : String → String → Nat)
    (d : String) (ns : List String) (t : Tracker) (r : SwitchRecord)
    (hr : alookup t d = some r)
    (hall : ∀ n ∈ ns, (alookup r.flows n).isSome) :
    installNeighbors cf inst d ns t = ⟨t, [], [], false⟩ := by
  induction ns with
  | nil => rfl
  | cons n ns ih =>
    rw [installNeighbors_cons, hr]
    simp only []
    rw [if_pos (hall n (List.mem_cons_self n ns))]
    exact ih (fun n' hn' => hall n' (List.mem_cons_of_mem n hn'))

theorem installAll_noop (cf : String) (inst : String → String → Nat)
    (ds : List String) (t : Tracker)
    (hP : ∀ d r, alookup t d = some r → ∀ n ∈ r.neighbors,
      (alookup r.flows n).isSome) :
    installAll cf inst ds t = ⟨t, [], [], false⟩ := by
  induction ds with
  | nil => rfl
  | cons d ds ih =>
    rw [installAll_cons]
    cases h0 : alookup t d with
    | none => exact ih
    | some r =>
      simp only []
      rw [installNeighbors_noop cf inst d r.neighbors t r h0 (hP d r h0)]
      simp [ih]

/-- Every request the inner loop posts is for `d`, carries a document built by
`mkFlowDoc`, and its (switch, neighbor) pair ends the loop recorded in
`flows` — whatever status the flow manager returned. -/
theorem installNeighbors_posts (cf : String) (inst : String → String → Nat)
    (d : String) (ns : List String) (t : Tracker) (x : String × String × FlowDoc)
    (hx : x ∈ (installNeighbors cf inst d ns t).posts) :
    x.1 = d ∧ (∃ v, x.2.2 = mkFlowDoc cf v) ∧
      ∃ r', alookup (installNeighbors cf inst d ns t).tracker d = some r' ∧
        (alookup r'.flows x.2.1).isSome := by
  induction ns generalizing t with
  | nil => simp [installNeighbors_nil] at hx
  | cons n ns ih =>
    rw [installNeighbors_cons] at hx ⊢
    cases h0 : alookup t d with
    | none =>
      rw [h0] at hx
      simp at hx
    | some r =>
      rw [h0] at hx
      simp only [] at hx ⊢
      by_cases hf : (alookup r.flows n).isSome
      · rw [if_pos hf] at hx ⊢
        exact ih t hx
      · rw [if_neg hf] at hx ⊢
        cases hn : alookup t n with
        | none =>
          rw [hn] at hx
          simp at hx
        | some rn =>
          rw [hn] at hx
          simp only [] at hx ⊢
          have hfn : alookup r.flows n = none := by
            cases hz : alookup r.flows n with
            | none => rfl
            | some v => rw [hz] at hf; exact absurd rfl hf
          have h1 : alookup
              (aupdate t d { r with flows := r.flows ++ [(n, mkFlowDoc cf (color_to_field rn.color cf))] }) d
              = some { r with flows := r.flows ++ [(n, mkFlowDoc cf (color_to_field rn.color cf))] } := by
            rw [alookup_aupdate_self, h0]
            rfl
          rcases List.mem_cons.mp hx with rfl | hmem
          · refine ⟨rfl, ⟨color_to_field rn.color cf, rfl⟩, ?_⟩
            obtain ⟨new, hnew, _⟩ := installNeighbors_shape cf inst d ns _ _ h1
            refine ⟨_, hnew, ?_⟩
            have hleft : alookup (r.flows ++ [(n, mkFlowDoc cf (color_to_field rn.color cf))]) n
                = some (mkFlowDoc cf (color_to_field rn.color cf)) := by
              rw [alookup_append_right _ _ _ hfn, alookup_cons, if_pos rfl]
            have : alookup ((r.flows ++ [(n, mkFlowDoc cf (color_to_field rn.color cf))]) ++ new) n
                = some (mkFlowDoc cf (color_to_field rn.color cf)) :=
              alookup_append_left _ _ _ _ hleft
            rw [show (({ r with flows := r.flows ++ [(n, mkFlowDoc cf (color_to_field rn.color cf))] } : SwitchRecord).flows ++ new) = ((r.flows ++ [(n, mkFlowDoc cf (color_to_field rn.color cf))]) ++ new) from rfl, this]
            rfl
          · exact ih _ hmem

/-- Every request the install stage posts carries a `mkFlowDoc` document and
ends the pass recorded in the target switch's `flows`. -/
theorem installAll_posts (cf : String) (inst : String → String → Nat)
    (ds : List String) (t : Tracker) (x : String × String × FlowDoc)
    (hx : x ∈ (installAll cf inst ds t).posts) :
    (∃ v, x.2.2 = mkFlowDoc cf v) ∧
      ∃ r', alookup (installAll cf inst ds t).tracker x.1 = some r' ∧
        (alookup r'.flows x.2.1).isSome := by
  induction ds generalizing t with
  | nil => simp [installAll_nil] at hx
  | cons d ds ih =>
    rw [installAll_cons] at hx ⊢
    cases h0 : alookup t d with
    | none =>
      rw [h0] at hx
      exact ih t hx
    | some r =>
      rw [h0] at hx
      simp only [] at hx ⊢
      by_cases hab : (installNeighbors cf inst d r.neighbors t).aborted
      · rw [if_pos hab] at hx ⊢
        have := installNeighbors_posts cf inst d r.neighbors t x hx
        obtain ⟨hx1, hdoc, r', hr', hflow⟩ := this
        exact ⟨hdoc, r', hx1 ▸ hr', hflow⟩
      · rw [if_neg hab] at hx ⊢
        simp only [] at hx ⊢
        rcases List.mem_append.mp hx with hmem | hmem
        · obtain ⟨hx1, hdoc, r', hr', hflow⟩ :=
            installNeighbors_posts cf inst d r.neighbors t x hmem
          rw [hx1]
          obtain ⟨new2, hnew2, _⟩ := installAll_shape cf inst ds _ d r' hr'
          refine ⟨hdoc, _, hnew2, ?_⟩
          obtain ⟨v, hv⟩ := Option.isSome_iff_exists.mp hflow
          have : alookup (r'.flows ++ new2) x.2.1 = some v :=
            alookup_append_left _ _ _ _ hv
          rw [show ({ r' with flows := r'.flows ++ new2 } : SwitchRecord).flows = r'.flows ++ new2 from rfl, this]
          rfl
        · exact ih _ hmem

/-- Status codes returned by the flow manager influence only the error log:
tracker, posts and abort behavior are oracle-independent. -/
theorem installNeighbors_inst_eq (cf : String) (inst inst' : String → String → Nat)
    (d : String) (ns : List String) (t : Tracker) :
    (installNeighbors cf inst d ns t).tracker = (installNeighbors cf inst' d ns t).tracker ∧
    (installNeighbors cf inst d ns t).posts = (installNeighbors cf inst' d ns t).posts ∧
    (installNeighbors cf inst d ns t).aborted = (installNeighbors cf inst' d ns t).aborted := by
  induction ns generalizing t with
  | nil => exact ⟨rfl, rfl, rfl⟩
  | cons n ns ih =>
    rw [installNeighbors_cons, installNeighbors_cons]
    cases h0 : alookup t d with
    | none => exact ⟨rfl, rfl, rfl⟩
    | some r =>
      simp only []
      by_cases hf : (alookup r.flows n).isSome
      · rw [if_pos hf, if_pos hf]
        exact ih t
      · rw [if_neg hf, if_neg hf]
        cases hn : alookup t n with
        | none => exact ⟨rfl, rfl, rfl⟩
        | some rn =>
          simp only []
          obtain ⟨h1, h2, h3⟩ := ih (aupdate t d { r with flows := r.flows ++ [(n, mkFlowDoc cf (color_to_field rn.color cf))] })
          exact ⟨h1, by rw [h2], h3⟩

theorem installAll_inst_eq (cf : String) (inst inst' : String → String → Nat)
    (ds : List String) (t : Tracker) :
    (installAll cf inst ds t).tracker = (installAll cf inst' ds t).tracker ∧
    (installAll cf inst ds t).posts = (installAll cf inst' ds t).posts ∧
    (installAll cf inst ds t).aborted = (installAll cf inst' ds t).aborted := by
  induction ds generalizing t with
  | nil => exact ⟨rfl, rfl, rfl⟩
  | cons d ds ih =>
    rw [installAll_cons, installAll_cons]
    cases h0 : alookup t d with
    | none => exact ih t
    | some r =>
      simp only []
      obtain ⟨g1, g2, g3⟩ := installNeighbors_inst_eq cf inst inst' d r.neighbors t
      by_cases hab : (installNeighbors cf inst d r.neighbors t).aborted
      · rw [if_pos hab, if_pos (g3 ▸ hab)]
        exact ⟨g1, g2, g3⟩
      · rw [if_neg hab, if_neg (fun hh => hab (g3 ▸ hh))]
        simp only []
        obtain ⟨h1, h2, h3⟩ := ih (installNeighbors cf inst' d r.neighbors t).tracker
        rw [g1, g2]
        exact ⟨h1, by rw [h2], h3⟩

/-- A pass of `update_colors` either aborts during the link loop or runs the install
stage on the rebuilt tracker. -/
theorem update_colors_cases (cf : String) (inst : String → String → Nat)
    (ctrl : List CtrlSwitch) (links : List Link) (t : Tracker) :
    (∃ t2, addLinks links (ensurePass ctrl t) = (t2, true) ∧
      update_colors cf inst ctrl links t = ⟨t2, [], [], true⟩) ∨
    (∃ t2, addLinks links (ensurePass ctrl t) = (t2, false) ∧
      update_colors cf inst ctrl links t =
        installAll cf inst (t2.map Prod.fst) t2) := by
  unfold update_colors
  cases h : addLinks links (ensurePass ctrl t) with
  | mk t2 b =>
    cases b with
    | true => exact Or.inl ⟨t2, rfl, rfl⟩
    | false => exact Or.inr ⟨t2, rfl, rfl⟩

/-! ### The `'00' → 'ee'` fixup on rendered MAC strings -/

theorem pyReplace00ee_two (c d : Char) (s : List Char) :
    pyReplace00ee (c :: d :: s) =
      if c = '0' ∧ d = '0' then 'e' :: 'e' :: pyReplace00ee s
      else c :: pyReplace00ee (d :: s) := rfl

theorem pyReplace00ee_colon_cons (s : List Char) :
    pyReplace00ee (':' :: s) = ':' :: pyReplace00ee s := by
  cases s with
  | nil => rfl
  | cons c s' =>
    rw [pyReplace00ee_two, if_neg (fun h => absurd h.1 (by decide))]

/-- The fixup acting on one octet followed by a separator: the separator stops
any `"00"` from spanning the boundary. -/
theorem pyReplace00ee_pair_colon (d1 d2 : Char) (s : List Char) :
    pyReplace00ee (d1 :: d2 :: ':' :: s) =
      (if d1 = '0' ∧ d2 = '0' then ['e', 'e'] else [d1, d2]) ++
        ':' :: pyReplace00ee s := by
  rw [pyReplace00ee_two]
  by_cases h : d1 = '0' ∧ d2 = '0'
  · rw [if_pos h, if_pos h, pyReplace00ee_colon_cons]
    rfl
  · rw [if_neg h, if_neg h, pyReplace00ee_two,
      if_neg (fun hh => absurd hh.2 (by decide)), pyReplace00ee_colon_cons]
    rfl

theorem pyReplace00ee_pair_end (d1 d2 : Char) :
    pyReplace00ee [d1, d2] =
      if d1 = '0' ∧ d2 = '0' then ['e', 'e'] else [d1, d2] := by
  rw [pyReplace00ee_two]
  by_cases h : d1 = '0' ∧ d2 = '0'
  · rw [if_pos h, if_pos h]
    rfl
  · rw [if_neg h, if_neg h]
    rfl

theorem hexDigit_eq_zero_iff (m : Nat) (hm : m < 16) :
    hexDigit m = '0' ↔ m = 0 := by
  interval_cases m <;> decide

theorem hexPair_zero_iff (b : Nat) (hb : b < 256) :
    (hexDigit (b / 16) = '0' ∧ hexDigit (b % 16) = '0') ↔ b = 0 := by
  have h1 : b / 16 < 16 := Nat.div_lt_of_lt_mul (by omega)
  have h2 : b % 16 < 16 := Nat.mod_lt _ (by omega)
  rw [hexDigit_eq_zero_iff _ h1, hexDigit_eq_zero_iff _ h2]
  omega

/-- On a colon-separated rendering of bytes, the string-level `"00" → "ee"`
replacement coincides with replacing exactly the all-zero octets: the colon
after every pair prevents a `"00"` occurrence from straddling two octets. -/
theorem pyReplace00ee_joinColon (bs : List Nat) (h : ∀ b ∈ bs, b < 256) :
    pyReplace00ee (joinColon (bs.map hexPair)) =
      joinColon (bs.map (fun b => if b = 0 then ['e', 'e'] else hexPair b)) := by
  induction bs with
  | nil => rfl
  | cons b bs ih =>
    have hb : b < 256 := h b (List.mem_cons_self b bs)
    cases bs with
    | nil =>
      show pyReplace00ee (hexPair b) = _
      show pyReplace00ee [hexDigit (b / 16), hexDigit (b % 16)] = _
      rw [pyReplace00ee_pair_end]
      by_cases hz : b = 0
      · rw [if_pos ((hexPair_zero_iff b hb).mpr hz)]
        show _ = joinColon [ite _ _ _]
        rw [if_pos hz]
        rfl
      · rw [if_neg (fun hh => hz ((hexPair_zero_iff b hb).mp hh))]
        show _ = joinColon [ite _ _ _]
        rw [if_neg hz]
        rfl
    | cons b' bs' =>
      have hrest := ih (fun x hx => h x (List.mem_cons_of_mem b hx))
      show pyReplace00ee (hexDigit (b / 16) :: hexDigit (b % 16) :: ':' ::
        joinColon ((b' :: bs').map hexPair)) = _
      rw [pyReplace00ee_pair_colon, hrest]
      show _ = (if b = 0 then ['e', 'e'] else hexPair b) ++ ':' :: _
      by_cases hz : b = 0
      · rw [if_pos ((hexPair_zero_iff b hb).mpr hz), if_pos hz]
        rfl
      · rw [if_neg (fun hh => hz ((hexPair_zero_iff b hb).mp hh)), if_neg hz]
        rfl

theorem packQ_lt (c : Nat) : ∀ b ∈ packQ c, b < 256 := by
  intro b hb
  simp only [packQ, List.mem_cons, List.not_mem_nil, or_false] at hb
  rcases hb with rfl | rfl | rfl | rfl | rfl | rfl | rfl | rfl <;> omega

/-! ### Spec-side comparison definitions -/

/-- The MAC-address encoding pipeline exactly as the specification words it:
mask the color to 64 bits, take the 6 low-order bytes of the big-endian
8-byte packing (the 2 highest-order bytes dropped), render as lowercase
colon-separated hex octets, then replace every literal `"00"` substring by
`"ee"`.  Written with bit operations, independently of `packQ`, to be compared
with `color_to_field`. -/
def macEncodeSpec (color : Nat) : String :=
  let m := color &&& 0xffffffffffffffff
  let bytes := [m >>> 40 &&& 255, m >>> 32 &&& 255, m >>> 24 &&& 255,
    m >>> 16 &&& 255, m >>> 8 &&& 255, m &&& 255]
  String.mk (pyReplace00ee (joinColon (bytes.map hexPair)))

/-- Following the spec's words: the controller-reserved logical port value as
it would be resolved per protocol version in use by the switch (OpenFlow 1.0:
`0xfffd`; OpenFlow 1.3: `0xfffffffd`; other versions unsupported).  The code
has no such resolution; this definition exists to compare the spec's claim
with the constant the code actually uses. -/
def specControllerPort (ofVersion : Nat) : Option Nat :=
  if ofVersion = 1 then some 0xfffd
  else if ofVersion = 4 then some 0xfffffffd
  else none

theorem nat_and_255 (x : Nat) : x &&& 255 = x % 256 :=
  Nat.and_pow_two_sub_one_eq_mod x 8

theorem nat_and_mask64 (x : Nat) : x &&& 0xffffffffffffffff = x % 2 ^ 64 :=
  Nat.and_pow_two_sub_one_eq_mod x 64

/-! ### Claim C4 -/

/-- C4: for every non-negative integer color, the MAC-address encoding masks
the color to 64 bits, packs it big-endian into 8 bytes, drops the 2
highest-order bytes, renders the remaining 6 bytes as lowercase
colon-separated hex octets, and replaces every literal `"00"` substring by
`"ee"`; in particular `color_to_field 300 'dl_src'` is the string
`"ee:ee:ee:ee:01:2c"`, whose hex digits read as the integer
`0xeeeeeeee012c`. -/
theorem C4_mac_encoding :
    (∀ color : Nat, color_to_field color "dl_src" =
      some (FieldValue.str (macEncodeSpec color))) ∧
    color_to_field 300 "dl_src" = some (FieldValue.str "ee:ee:ee:ee:01:2c") ∧
    parseHex ("ee:ee:ee:ee:01:2c".data.filter (fun c => c ≠ ':')) =
      0xeeeeeeee012c := by
  refine ⟨?_, by decide, by decide⟩
  intro color
  unfold color_to_field macEncodeSpec
  rw [if_pos (Or.inl rfl)]
  simp only [nat_and_mask64, nat_and_255, Nat.shiftRight_eq_div_pow]
  rfl

/-! ### Claim C9 -/

/-- C9 counterexample: for a field kind outside the four recognized groups the
code returns no value at all (Python's implicit `None` after falling through
every `if`), not the color masked to 8 bits: at color 300 and field
`"mpls_label"` the claimed fallback would be `some 44`, but the code returns
`none`. -/
theorem C9_counterexample :
    color_to_field 300 "mpls_label" = none ∧
    color_to_field 300 "mpls_label" ≠ some (FieldValue.nat (300 % 2 ^ 8)) := by
  decide

/-- C9 amended: for every color and every field kind other than the
recognized MAC-address, IPv4-address, two-byte and one-byte kinds,
`color_to_field` returns no value (Python `None`) — there is no 8-bit
fallback. -/
theorem C9_amended (color : Nat) (f : String)
    (h : f ∉ ["dl_src", "dl_dst", "nw_src", "nw_dst", "in_port", "dl_vlan",
      "tp_src", "tp_dst", "nw_tos", "nw_proto"]) :
    color_to_field color f = none := by
  simp only [List.mem_cons, List.not_mem_nil, or_false, not_or] at h
  unfold color_to_field
  rw [if_neg (by tauto), if_neg (by tauto), if_neg (by tauto), if_neg (by tauto)]

theorem C9_amended_witness : color_to_field 300 "mpls_label" = none :=
  C9_amended 300 "mpls_label" (by decide)

/-! ### Claim C10 -/

/-- C10: the string-level `"00" → "ee"` fixup on the rendered MAC string
changes only whole octets — since a colon separates every hex pair, no `"00"`
can span an octet boundary — so the encoder produces exactly the rendering in
which each all-zero octet is replaced by `"ee"` and every other octet is kept
verbatim. -/
theorem C10_fixup_octetwise (color : Nat) :
    color_to_field color "dl_src" =
      some (FieldValue.str (String.mk (joinColon
        (((packQ (color % 2 ^ 64)).drop 2).map
          (fun b => if b = 0 then ['e', 'e'] else hexPair b))))) := by
  unfold color_to_field
  rw [if_pos (Or.inl rfl)]
  have hlt : ∀ b ∈ (packQ (color % 2 ^ 64)).drop 2, b < 256 :=
    fun b hb => packQ_lt _ b (List.drop_subset 2 _ hb)
  rw [pyReplace00ee_joinColon _ hlt]

/-! ### The second pass of an unchanged topology is a no-op -/

theorem SwitchRecord.ext' (a b : SwitchRecord) (h1 : a.color = b.color)
    (h2 : a.neighbors = b.neighbors) (h3 : a.flows = b.flows) : a = b := by
  cases a
  cases b
  cases h1
  cases h2
  cases h3
  rfl

theorem update_colors_second_pass (cf : String) (inst inst' : String → String → Nat)
    (ctrl : List CtrlSwitch) (links : List Link) (t t2 : Tracker)
    (hnd : (t.map Prod.fst).Nodup)
    (hl : addLinks links (ensurePass ctrl t) = (t2, false))
    (habI : (installAll cf inst (t2.map Prod.fst) t2).aborted = false) :
    update_colors cf inst' ctrl links
      (installAll cf inst (t2.map Prod.fst) t2).tracker =
    ⟨(installAll cf inst (t2.map Prod.fst) t2).tracker, [], [], false⟩ := by
  set t1 := ensurePass ctrl t with ht1
  set sw1 := (installAll cf inst (t2.map Prod.fst) t2).tracker with hsw1
  set t1' := ensurePass ctrl sw1 with ht1'
  -- key sequences agree along the whole chain
  have hk2 : t2.map Prod.fst = t1.map Prod.fst := by
    have h := addLinks_keys links t1
    rwa [hl] at h
  have hksw : sw1.map Prod.fst = t2.map Prod.fst := by
    rw [hsw1]
    exact installAll_keys cf inst (t2.map Prod.fst) t2
  have hnd1 : (t1.map Prod.fst).Nodup := ensurePass_nodup ctrl t hnd
  have hndsw : (sw1.map Prod.fst).Nodup := by
    rw [hksw, hk2]
    exact hnd1
  have hctrl1 : ∀ c ∈ ctrl, (alookup t1 c.dpid).isSome := by
    intro c hc
    obtain ⟨r', hr', _⟩ := ensurePass_lookup_mem ctrl t c.dpid
      (List.mem_map_of_mem CtrlSwitch.dpid hc)
    rw [ht1, hr']
    rfl
  have hkeq1 : sw1.map Prod.fst = t1.map Prod.fst := by rw [hksw, hk2]
  have hctrlsw : ∀ c ∈ ctrl, (alookup sw1 c.dpid).isSome := fun c hc =>
    (keys_eq_lookup_isSome sw1 t1 hkeq1 c.dpid).mpr (hctrl1 c hc)
  have hk1' : t1'.map Prod.fst = sw1.map Prod.fst := by
    rw [ht1']
    exact ensurePass_keys_of_known ctrl sw1 hctrlsw
  have hkeq1' : t1'.map Prod.fst = t1.map Prod.fst := by rw [hk1', hkeq1]
  -- the second link pass does not abort
  have hgood : ∀ l ∈ links, ∀ s tg, resolveLink l = some (s, tg) →
      (alookup t1' s).isSome ∧ (alookup t1' tg).isSome := by
    intro l hml s tg hres
    have h := addLinks_ok_endpoints links t1 t2 hl l hml s tg hres
    exact ⟨(keys_eq_lookup_isSome t1' t1 hkeq1' s).mpr h.1,
      (keys_eq_lookup_isSome t1' t1 hkeq1' tg).mpr h.2⟩
  have hab2 : (addLinks links t1').2 = false := addLinks_noabort links t1' hgood
  have hl' : addLinks links t1' = ((addLinks links t1').1, false) := by
    rw [← hab2]
  have hkeys2' : (addLinks links t1').1.map Prod.fst = sw1.map Prod.fst := by
    rw [addLinks_keys, hk1']
  -- pointwise: the rebuilt tracker equals the pass-1 result
  have hpoint : ∀ d, alookup (addLinks links t1').1 d = alookup sw1 d := by
    intro d
    cases hsw1d : alookup sw1 d with
    | none =>
      rw [alookup_eq_none_iff] at hsw1d ⊢
      rw [hkeys2']
      exact hsw1d
    | some r1 =>
      -- trace the pass-1 record chain for d
      have hsome2 : (alookup t2 d).isSome :=
        (keys_eq_lookup_isSome t2 sw1 hksw.symm d).mpr (by rw [hsw1d]; rfl)
      obtain ⟨r2, hr2⟩ := Option.isSome_iff_exists.mp hsome2
      obtain ⟨new1, hnew1, _⟩ :=
        installAll_shape cf inst (t2.map Prod.fst) t2 d r2 hr2
      rw [← hsw1] at hnew1
      have hr1eq : r1 = { r2 with flows := r2.flows ++ new1 } :=
        Option.some.inj (hsw1d.symm.trans hnew1)
      by_cases hdc : d ∈ ctrl.map CtrlSwitch.dpid
      · -- records of controller switches are rebuilt from an empty set twice
        obtain ⟨re1, hre1, hn1, _⟩ := ensurePass_lookup_mem ctrl t d hdc
        rw [← ht1] at hre1
        have hr2eq : r2 = { re1 with neighbors := addNbrs re1.neighbors (linkAddsAll d links) } := by
          have h := addLinks_ok_lookup links t1 t2 hl d re1 hre1
          exact Option.some.inj (hr2.symm.trans h)
        obtain ⟨re2, hre2, hn2, hrel2⟩ := ensurePass_lookup_mem ctrl sw1 d hdc
        rw [← ht1'] at hre2
        have hre2eq : re2 = { r1 with neighbors := [] } := by
          rcases hrel2 with ⟨rr, hrr, hc, hf⟩ | ⟨hnone, _⟩
          · have hrr1 : rr = r1 := Option.some.inj (hrr.symm.trans hsw1d)
            subst hrr1
            exact SwitchRecord.ext' _ _ hc hn2 hf
          · rw [hsw1d] at hnone
            exact absurd hnone (by simp)
        have h := addLinks_ok_lookup links t1' (addLinks links t1').1 hl' d re2 hre2
        rw [h]
        refine congrArg some (SwitchRecord.ext' _ _ ?_ ?_ ?_)
        · show re2.color = r1.color
          rw [hre2eq]
        · show addNbrs re2.neighbors (linkAddsAll d links) = r1.neighbors
          have hn : r1.neighbors = addNbrs re1.neighbors (linkAddsAll d links) := by
            rw [hr1eq, hr2eq]
          rw [hn2, hn, hn1]
        · show re2.flows = r1.flows
          rw [hre2eq]
      · -- stale records: the dedup fold is idempotent
        have hre1 : alookup t1 d = alookup t d := by
          rw [ht1]
          exact ensurePass_lookup_notmem ctrl t d hdc
        have hsome1 : (alookup t1 d).isSome :=
          (keys_eq_lookup_isSome t1 t2 hk2.symm d).mpr (by rw [hr2]; rfl)
        obtain ⟨r0, hr0⟩ := Option.isSome_iff_exists.mp hsome1
        have hr2eq : r2 = { r0 with neighbors := addNbrs r0.neighbors (linkAddsAll d links) } := by
          have h := addLinks_ok_lookup links t1 t2 hl d r0 hr0
          exact Option.some.inj (hr2.symm.trans h)
        have hre2' : alookup t1' d = some r1 := by
          rw [ht1', ensurePass_lookup_notmem ctrl sw1 d hdc]
          exact hsw1d
        have h := addLinks_ok_lookup links t1' (addLinks links t1').1 hl' d r1 hre2'
        rw [h]
        refine congrArg some (SwitchRecord.ext' _ _ rfl ?_ rfl)
        show addNbrs r1.neighbors (linkAddsAll d links) = r1.neighbors
        have hn : r1.neighbors = addNbrs r0.neighbors (linkAddsAll d links) := by
          rw [hr1eq, hr2eq]
        rw [hn]
        exact addNbrs_idem _ _
  -- hence the rebuilt tracker is the pass-1 tracker
  have heq2 : (addLinks links t1').1 = sw1 := by
    refine assoc_ext _ _ hkeys2' ?_ hpoint
    rw [hkeys2']
    exact hndsw
  -- every neighbor already has a flow entry, so the install stage no-ops
  have hP : ∀ d r, alookup sw1 d = some r → ∀ n ∈ r.neighbors,
      (alookup r.flows n).isSome := by
    intro d r hr n hn
    have hdmem : d ∈ t2.map Prod.fst := by
      rw [← hksw]
      exact (alookup_isSome_iff_mem sw1 d).mp (by rw [hr]; rfl)
    rw [hsw1] at hr
    exact installAll_covers cf inst (t2.map Prod.fst) t2 habI d hdmem r hr n hn
  have hnoop : installAll cf inst' (sw1.map Prod.fst) sw1 = ⟨sw1, [], [], false⟩ :=
    installAll_noop cf inst' (sw1.map Prod.fst) sw1 hP
  -- assemble the second `update_colors` run
  rcases update_colors_cases cf inst' ctrl links sw1 with ⟨t2x, hlx, heqx⟩ | ⟨t2x, hlx, heqx⟩
  · rw [← ht1'] at hlx
    have hcontra : ((addLinks links t1').1, false) = (t2x, true) := hl'.symm.trans hlx
    exact absurd (congrArg Prod.snd hcontra) (by simp)
  · rw [← ht1'] at hlx
    have ht2x : t2x = (addLinks links t1').1 :=
      (congrArg Prod.fst (hl'.symm.trans hlx)).symm
    rw [heqx, ht2x, heq2, hnoop]

theorem linkAddsAll_mem (d : String) (ls : List Link) (l : Link) (hl : l ∈ ls)
    (x : String) (hx : x ∈ linkAdds d l) : x ∈ linkAddsAll d ls := by
  induction ls with
  | nil => simp at hl
  | cons l0 ls ih =>
    show x ∈ linkAdds d l0 ++ linkAddsAll d ls
    rcases List.mem_cons.mp hl with rfl | hmem
    · exact List.mem_append_left _ hx
    · exact List.mem_append_right _ (ih hmem)

/-! ### Claim C6 -/

/-- C6: running the diff-and-install step twice in a row with an unchanged
topology (same controller switches, same links) issues zero install requests
the second time and leaves the registry — in particular every `flows` map —
unchanged (stated for a first pass that completed without a `KeyError`, from
a registry with duplicate-free keys). -/
theorem C6_idempotent (cf : String) (inst inst' : String → String → Nat)
    (ctrl : List CtrlSwitch) (links : List Link) (t : Tracker)
    (hnd : (t.map Prod.fst).Nodup)
    (hab : (update_colors cf inst ctrl links t).aborted = false) :
    (update_colors cf inst' ctrl links
      (update_colors cf inst ctrl links t).tracker).posts = [] ∧
    (update_colors cf inst' ctrl links
      (update_colors cf inst ctrl links t).tracker).tracker =
      (update_colors cf inst ctrl links t).tracker := by
  rcases update_colors_cases cf inst ctrl links t with ⟨t2, hl, heq⟩ | ⟨t2, hl, heq⟩
  · rw [heq] at hab
    simp at hab
  · have habI : (installAll cf inst (t2.map Prod.fst) t2).aborted = false := by
      rw [heq] at hab
      exact hab
    have h2 := update_colors_second_pass cf inst inst' ctrl links t t2 hnd hl habI
    rw [heq, h2]
    exact ⟨rfl, rfl⟩

theorem C6_witness :
    (update_colors "in_port" (fun _ _ => 200)
      [⟨"00:00:00:00:00:00:00:01", 1⟩, ⟨"00:00:00:00:00:00:00:02", 1⟩]
      [⟨"00:00:00:00:00:00:00:01:1", "00:00:00:00:00:00:00:02:1"⟩]
      (update_colors "in_port" (fun _ _ => 200)
        [⟨"00:00:00:00:00:00:00:01", 1⟩, ⟨"00:00:00:00:00:00:00:02", 1⟩]
        [⟨"00:00:00:00:00:00:00:01:1", "00:00:00:00:00:00:00:02:1"⟩]
        []).tracker).posts = [] ∧
    (update_colors "in_port" (fun _ _ => 200)
      [⟨"00:00:00:00:00:00:00:01", 1⟩, ⟨"00:00:00:00:00:00:00:02", 1⟩]
      [⟨"00:00:00:00:00:00:00:01:1", "00:00:00:00:00:00:00:02:1"⟩]
      (update_colors "in_port" (fun _ _ => 200)
        [⟨"00:00:00:00:00:00:00:01", 1⟩, ⟨"00:00:00:00:00:00:00:02", 1⟩]
        [⟨"00:00:00:00:00:00:00:01:1", "00:00:00:00:00:00:00:02:1"⟩]
        []).tracker).tracker =
      (update_colors "in_port" (fun _ _ => 200)
        [⟨"00:00:00:00:00:00:00:01", 1⟩, ⟨"00:00:00:00:00:00:00:02", 1⟩]
        [⟨"00:00:00:00:00:00:00:01:1", "00:00:00:00:00:00:00:02:1"⟩]
        []).tracker :=
  C6_idempotent "in_port" (fun _ _ => 200) (fun _ _ => 200)
    [⟨"00:00:00:00:00:00:00:01", 1⟩, ⟨"00:00:00:00:00:00:00:02", 1⟩]
    [⟨"00:00:00:00:00:00:00:01:1", "00:00:00:00:00:00:00:02:1"⟩]
    [] (by decide) (by decide)

/-! ### Claim C7 -/

/-- C7: re-running the ensure-switch step for an identity already present in
the registry leaves that record's color unchanged — the color is computed only
at record creation (the `else` branch of lines 59-66 resets only
`neighbors`). -/
theorem C7_color_stability (ctrl : List CtrlSwitch) (t : Tracker) (d : String)
    (h : (alookup t d).isSome) :
    ∃ r r', alookup t d = some r ∧ alookup (ensurePass ctrl t) d = some r' ∧
      r'.color = r.color := by
  obtain ⟨r, hr⟩ := Option.isSome_iff_exists.mp h
  by_cases hd : d ∈ ctrl.map CtrlSwitch.dpid
  · obtain ⟨r', hr', _, hrel⟩ := ensurePass_lookup_mem ctrl t d hd
    rcases hrel with ⟨rr, hrr, hc, _⟩ | ⟨hnone, _⟩
    · have hrr1 : rr = r := Option.some.inj (hrr.symm.trans hr)
      subst hrr1
      exact ⟨rr, r', hr, hr', hc⟩
    · rw [hr] at hnone
      exact absurd hnone (by simp)
  · rw [ensurePass_lookup_notmem ctrl t d hd]
    exact ⟨r, r, hr, hr, rfl⟩

theorem C7_witness :
    ∃ r r', alookup [("00:00:00:00:00:00:00:01",
        (⟨7, ["x"], []⟩ : SwitchRecord))] "00:00:00:00:00:00:00:01" = some r ∧
      alookup (ensurePass [⟨"00:00:00:00:00:00:00:01", 1⟩]
        [("00:00:00:00:00:00:00:01", (⟨7, ["x"], []⟩ : SwitchRecord))])
        "00:00:00:00:00:00:00:01" = some r' ∧
      r'.color = r.color :=
  C7_color_stability [⟨"00:00:00:00:00:00:00:01", 1⟩]
    [("00:00:00:00:00:00:00:01", (⟨7, ["x"], []⟩ : SwitchRecord))]
    "00:00:00:00:00:00:00:01" (by decide)

/-! ### Claim C2 -/

/-- C2 counterexample: the code has no self-loop check.  A single link whose
two endpoints both resolve to switch `00:…:01` leaves that switch recorded as
its own neighbor after the pass — the claim says this never happens. -/
theorem C2_counterexample :
    ((alookup (update_colors "in_port" (fun _ _ => 200)
        [⟨"00:00:00:00:00:00:00:01", 1⟩]
        [⟨"00:00:00:00:00:00:00:01:1", "00:00:00:00:00:00:00:01:2"⟩]
        []).tracker "00:00:00:00:00:00:00:01").map
      (fun r => r.neighbors)) = some ["00:00:00:00:00:00:00:01"] := by
  decide

/-- C2 amended: a processed link whose two endpoints resolve to the same known
switch identity is *not* ignored: after a non-aborted pass that switch's
neighbors set contains the switch's own identity (both `add` calls of lines
75-76 insert it). -/
theorem C2_amended (cf : String) (inst : String → String → Nat)
    (ctrl : List CtrlSwitch) (links : List Link) (t : Tracker) (l : Link)
    (d : String) (hl : l ∈ links) (hres : resolveLink l = some (d, d))
    (hab : (update_colors cf inst ctrl links t).aborted = false) :
    ∃ r, alookup (update_colors cf inst ctrl links t).tracker d = some r ∧
      d ∈ r.neighbors := by
  rcases update_colors_cases cf inst ctrl links t with ⟨t2, hl2, heq⟩ | ⟨t2, hl2, heq⟩
  · rw [heq] at hab
    simp at hab
  · have hknown := addLinks_ok_endpoints links (ensurePass ctrl t) t2 hl2 l hl d d hres
    obtain ⟨r0, hr0⟩ := Option.isSome_iff_exists.mp hknown.1
    have ht2 := addLinks_ok_lookup links (ensurePass ctrl t) t2 hl2 d r0 hr0
    obtain ⟨new, hnew, _⟩ := installAll_shape cf inst (t2.map Prod.fst) t2 d _ ht2
    rw [heq]
    refine ⟨_, hnew, ?_⟩
    show d ∈ addNbrs r0.neighbors (linkAddsAll d links)
    refine (mem_addNbrs _ _ d).mpr (Or.inr ?_)
    refine linkAddsAll_mem d links l hl d ?_
    unfold linkAdds
    rw [hres]
    simp

theorem C2_amended_witness :
    ∃ r, alookup (update_colors "in_port" (fun _ _ => 200)
        [⟨"00:00:00:00:00:00:00:01", 1⟩]
        [⟨"00:00:00:00:00:00:00:01:1", "00:00:00:00:00:00:00:01:2"⟩]
        []).tracker "00:00:00:00:00:00:00:01" = some r ∧
      "00:00:00:00:00:00:00:01" ∈ r.neighbors :=
  C2_amended "in_port" (fun _ _ => 200) [⟨"00:00:00:00:00:00:00:01", 1⟩]
    [⟨"00:00:00:00:00:00:00:01:1", "00:00:00:00:00:00:00:01:2"⟩] []
    ⟨"00:00:00:00:00:00:00:01:1", "00:00:00:00:00:00:00:01:2"⟩
    "00:00:00:00:00:00:00:01" (by decide) (by decide) (by decide)

/-! ### Claim C3 -/

/-- C3 counterexample: an edge whose (well-formed) target dpid `00:…:99` is
unknown is not skipped.  The pass dies with a `KeyError`, after having already
added the unknown dpid to the known source's neighbors — the claim says the
edge is skipped with no record modified and no abort. -/
theorem C3_counterexample :
    (update_colors "in_port" (fun _ _ => 200)
      [⟨"00:00:00:00:00:00:00:01", 1⟩]
      [⟨"00:00:00:00:00:00:00:01:1", "00:00:00:00:00:00:00:99:1"⟩]
      []).aborted = true ∧
    ((alookup (update_colors "in_port" (fun _ _ => 200)
        [⟨"00:00:00:00:00:00:00:01", 1⟩]
        [⟨"00:00:00:00:00:00:00:01:1", "00:00:00:00:00:00:00:99:1"⟩]
        []).tracker "00:00:00:00:00:00:00:01").map
      (fun r => r.neighbors)) = some ["00:00:00:00:00:00:00:99"] := by
  decide

/-- C3 amended: a link with well-formed endpoints whose source resolves to a
known switch and whose target is unknown is not skipped: the pass aborts with
a `KeyError` before any flow is posted, and by then the unknown target has
already been added to the source's neighbors. -/
theorem C3_amended (cf : String) (inst : String → String → Nat)
    (ctrl : List CtrlSwitch) (rest : List Link) (t : Tracker) (l : Link)
    (s tg : String) (r : SwitchRecord)
    (hres : resolveLink l = some (s, tg))
    (hs : alookup (ensurePass ctrl t) s = some r)
    (htg : alookup (ensurePass ctrl t) tg = none) :
    (update_colors cf inst ctrl (l :: rest) t).aborted = true ∧
    (update_colors cf inst ctrl (l :: rest) t).posts = [] ∧
    ∃ r1, alookup (update_colors cf inst ctrl (l :: rest) t).tracker s = some r1 ∧
      tg ∈ r1.neighbors := by
  have hne : tg ≠ s := by
    intro hh
    rw [hh, hs] at htg
    exact absurd htg (by simp)
  have hstep : addLink (ensurePass ctrl t) l =
      (aupdate (ensurePass ctrl t) s { r with neighbors := addNbr r.neighbors tg },
        true) := by
    rw [addLink_of_resolve_some _ l s tg hres, addNeighbor_eq _ s tg r hs]
    simp only []
    rw [(addNeighbor_none_iff _ tg s).mpr (by rw [alookup_aupdate_ne _ _ _ _ hne]; exact htg)]
  have hlinks : addLinks (l :: rest) (ensurePass ctrl t) =
      (aupdate (ensurePass ctrl t) s { r with neighbors := addNbr r.neighbors tg },
        true) := by
    rw [addLinks_cons, hstep]
  have hupd : update_colors cf inst ctrl (l :: rest) t =
      ⟨aupdate (ensurePass ctrl t) s { r with neighbors := addNbr r.neighbors tg },
        [], [], true⟩ := by
    unfold update_colors
    rw [hlinks]
  refine ⟨by rw [hupd], by rw [hupd], ?_⟩
  rw [hupd]
  show ∃ r1, alookup (aupdate _ s _) s = some r1 ∧ _
  refine ⟨{ r with neighbors := addNbr r.neighbors tg }, ?_, ?_⟩
  · rw [alookup_aupdate_self, hs]
    rfl
  · show tg ∈ addNbr r.neighbors tg
    exact (mem_addNbr _ _ _).mpr (Or.inr rfl)

theorem C3_amended_witness :
    (update_colors "in_port" (fun _ _ => 200)
      [⟨"00:00:00:00:00:00:00:01", 1⟩]
      [⟨"00:00:00:00:00:00:00:01:1", "00:00:00:00:00:00:00:99:1"⟩]
      []).aborted = true ∧
    (update_colors "in_port" (fun _ _ => 200)
      [⟨"00:00:00:00:00:00:00:01", 1⟩]
      [⟨"00:00:00:00:00:00:00:01:1", "00:00:00:00:00:00:00:99:1"⟩]
      []).posts = [] ∧
    ∃ r1, alookup (update_colors "in_port" (fun _ _ => 200)
        [⟨"00:00:00:00:00:00:00:01", 1⟩]
        [⟨"00:00:00:00:00:00:00:01:1", "00:00:00:00:00:00:00:99:1"⟩]
        []).tracker "00:00:00:00:00:00:00:01" = some r1 ∧
      "00:00:00:00:00:00:00:99" ∈ r1.neighbors :=
  C3_amended "in_port" (fun _ _ => 200) [⟨"00:00:00:00:00:00:00:01", 1⟩] [] []
    ⟨"00:00:00:00:00:00:00:01:1", "00:00:00:00:00:00:00:99:1"⟩
    "00:00:00:00:00:00:00:01" "00:00:00:00:00:00:00:99"
    ⟨1, [], []⟩ (by decide) (by decide) (by decide)

/-! ### Claim C1 -/

/-- C1 counterexample: switch `00:…:01` has neighbors `00:…:02` (whose install
returns 500) and `00:…:03` (200).  The claim says the failed pair stays
pending; in fact both pairs are recorded in `flows` — the code stores the flow
before posting and ignores the status except for the error log (which shows
the 500 really happened). -/
theorem C1_counterexample :
    ((alookup (update_colors "in_port"
        (fun _ n => if n = "00:00:00:00:00:00:00:02" then 500 else 200)
        [⟨"00:00:00:00:00:00:00:01", 1⟩, ⟨"00:00:00:00:00:00:00:02", 1⟩,
          ⟨"00:00:00:00:00:00:00:03", 1⟩]
        [⟨"00:00:00:00:00:00:00:01:1", "00:00:00:00:00:00:00:02:1"⟩,
          ⟨"00:00:00:00:00:00:00:01:2", "00:00:00:00:00:00:00:03:1"⟩]
        []).tracker "00:00:00:00:00:00:00:01").map
      (fun r => ((alookup r.flows "00:00:00:00:00:00:00:02").isSome,
        (alookup r.flows "00:00:00:00:00:00:00:03").isSome))) = some (true, true) ∧
    (update_colors "in_port"
      (fun _ n => if n = "00:00:00:00:00:00:00:02" then 500 else 200)
      [⟨"00:00:00:00:00:00:00:01", 1⟩, ⟨"00:00:00:00:00:00:00:02", 1⟩,
        ⟨"00:00:00:00:00:00:00:03", 1⟩]
      [⟨"00:00:00:00:00:00:00:01:1", "00:00:00:00:00:00:00:02:1"⟩,
        ⟨"00:00:00:00:00:00:00:01:2", "00:00:00:00:00:00:00:03:1"⟩]
      []).failures = [("00:00:00:00:00:00:00:01", 500)] := by
  decide

/-- C1 amended: every (switch, neighbor) pair for which an install request is
issued is recorded in `flows` *unconditionally, before the POST*; the status
code affects only the error log, so the final registry and the request list
are the same under any oracle, and a failed pair is not retried (it is already
marked installed). -/
theorem C1_amended (cf : String) (inst inst' : String → String → Nat)
    (ctrl : List CtrlSwitch) (links : List Link) (t : Tracker)
    (x : String × String × FlowDoc)
    (hx : x ∈ (update_colors cf inst ctrl links t).posts) :
    (∃ r, alookup (update_colors cf inst ctrl links t).tracker x.1 = some r ∧
      (alookup r.flows x.2.1).isSome) ∧
    (update_colors cf inst' ctrl links t).tracker =
      (update_colors cf inst ctrl links t).tracker ∧
    (update_colors cf inst' ctrl links t).posts =
      (update_colors cf inst ctrl links t).posts := by
  rcases update_colors_cases cf inst ctrl links t with ⟨t2, hl, heq⟩ | ⟨t2, hl, heq⟩
  · rw [heq] at hx
    simp at hx
  · rw [heq] at hx ⊢
    obtain ⟨_, r', hr', hflow⟩ := installAll_posts cf inst (t2.map Prod.fst) t2 x hx
    refine ⟨⟨r', hr', hflow⟩, ?_⟩
    rcases update_colors_cases cf inst' ctrl links t with ⟨t2x, hlx, heqx⟩ | ⟨t2x, hlx, heqx⟩
    · have hcontra : (t2, false) = (t2x, true) := hl.symm.trans hlx
      exact absurd (congrArg Prod.snd hcontra) (by simp)
    · have ht2x : t2x = t2 := (congrArg Prod.fst (hl.symm.trans hlx)).symm
      rw [heqx, ht2x]
      obtain ⟨g1, g2, _⟩ := installAll_inst_eq cf inst' inst (t2.map Prod.fst) t2
      exact ⟨g1, g2⟩

theorem C1_amended_witness :
    (∃ r, alookup (update_colors "in_port" (fun _ _ => 500)
        [⟨"00:00:00:00:00:00:00:01", 1⟩, ⟨"00:00:00:00:00:00:00:02", 1⟩]
        [⟨"00:00:00:00:00:00:00:01:1", "00:00:00:00:00:00:00:02:1"⟩]
        []).tracker "00:00:00:00:00:00:00:01" = some r ∧
      (alookup r.flows "00:00:00:00:00:00:00:02").isSome) ∧
    (update_colors "in_port" (fun _ _ => 200)
      [⟨"00:00:00:00:00:00:00:01", 1⟩, ⟨"00:00:00:00:00:00:00:02", 1⟩]
      [⟨"00:00:00:00:00:00:00:01:1", "00:00:00:00:00:00:00:02:1"⟩]
      []).tracker =
      (update_colors "in_port" (fun _ _ => 500)
        [⟨"00:00:00:00:00:00:00:01", 1⟩, ⟨"00:00:00:00:00:00:00:02", 1⟩]
        [⟨"00:00:00:00:00:00:00:01:1", "00:00:00:00:00:00:00:02:1"⟩]
        []).tracker ∧
    (update_colors "in_port" (fun _ _ => 200)
      [⟨"00:00:00:00:00:00:00:01", 1⟩, ⟨"00:00:00:00:00:00:00:02", 1⟩]
      [⟨"00:00:00:00:00:00:00:01:1", "00:00:00:00:00:00:00:02:1"⟩]
      []).posts =
      (update_colors "in_port" (fun _ _ => 500)
        [⟨"00:00:00:00:00:00:00:01", 1⟩, ⟨"00:00:00:00:00:00:00:02", 1⟩]
        [⟨"00:00:00:00:00:00:00:01:1", "00:00:00:00:00:00:00:02:1"⟩]
        []).posts :=
  C1_amended "in_port" (fun _ _ => 500) (fun _ _ => 200)
    [⟨"00:00:00:00:00:00:00:01", 1⟩, ⟨"00:00:00:00:00:00:00:02", 1⟩]
    [⟨"00:00:00:00:00:00:00:01:1", "00:00:00:00:00:00:00:02:1"⟩] []
    ("00:00:00:00:00:00:00:01", "00:00:00:00:00:00:00:02",
      mkFlowDoc "in_port" (some (FieldValue.nat 2)))
    (by decide)

/-! ### Claim C5 -/

/-- C5 counterexample: with switches running protocol version 4 (OpenFlow 1.3)
and version 99 (unsupported), every posted flow still carries the constant
output port 65533 — the OpenFlow 1.0 controller port, not the 1.3 value
`0xfffffffd` the per-version resolution would give — and the
unsupported-version switch is not skipped. -/
theorem C5_counterexample :
    ((update_colors "in_port" (fun _ _ => 200)
      [⟨"00:00:00:00:00:00:00:01", 4⟩, ⟨"00:00:00:00:00:00:00:02", 99⟩]
      [⟨"00:00:00:00:00:00:00:01:1", "00:00:00:00:00:00:00:02:1"⟩]
      []).posts.map (fun p => (p.1, p.2.2.actions))) =
      [("00:00:00:00:00:00:00:01", [⟨"output", 65533⟩]),
        ("00:00:00:00:00:00:00:02", [⟨"output", 65533⟩])] ∧
    specControllerPort 4 = some 4294967293 ∧
    specControllerPort 99 = none ∧
    (65533 : Nat) ≠ 4294967293 := by
  decide

/-- C5 amended: every flow document the pass submits has the single action
`output` to the fixed port 65533 (the OpenFlow 1.0 controller-port constant),
regardless of the protocol version of the target switch; no switch is skipped
for an unsupported version. -/
theorem C5_amended (cf : String) (inst : String → String → Nat)
    (ctrl : List CtrlSwitch) (links : List Link) (t : Tracker)
    (x : String × String × FlowDoc)
    (hx : x ∈ (update_colors cf inst ctrl links t).posts) :
    x.2.2.actions = [⟨"output", 65533⟩] := by
  rcases update_colors_cases cf inst ctrl links t with ⟨t2, hl, heq⟩ | ⟨t2, hl, heq⟩
  · rw [heq] at hx
    simp at hx
  · rw [heq] at hx
    obtain ⟨⟨v, hdoc⟩, _⟩ := installAll_posts cf inst (t2.map Prod.fst) t2 x hx
    rw [hdoc]
    rfl

theorem C5_amended_witness :
    (("00:00:00:00:00:00:00:01", "00:00:00:00:00:00:00:02",
      mkFlowDoc "in_port" (some (FieldValue.nat 2))) :
        String × String × FlowDoc).2.2.actions = [⟨"output", 65533⟩] :=
  C5_amended "in_port" (fun _ _ => 200)
    [⟨"00:00:00:00:00:00:00:01", 4⟩, ⟨"00:00:00:00:00:00:00:02", 99⟩]
    [⟨"00:00:00:00:00:00:00:01:1", "00:00:00:00:00:00:00:02:1"⟩] []
    ("00:00:00:00:00:00:00:01", "00:00:00:00:00:00:00:02",
      mkFlowDoc "in_port" (some (FieldValue.nat 2)))
    (by decide)

/-! ### Claim C8 -/

theorem C8_aux (cf : String) (inst : String → String → Nat)
    (ctrl : List CtrlSwitch) (links2 : List Link) (t0 : Tracker) (A B : String)
    (hab : (update_colors cf inst ctrl links2 t0).aborted = false)
    (hA : A ∈ ctrl.map CtrlSwitch.dpid)
    (hnA : B ∉ linkAddsAll A links2)
    (hA0 : (alookup t0 A).isSome) :
    ∃ rA0 rA, alookup t0 A = some rA0 ∧
      alookup (update_colors cf inst ctrl links2 t0).tracker A = some rA ∧
      B ∉ rA.neighbors ∧ alookup rA.flows B = alookup rA0.flows B := by
  obtain ⟨rA0, hrA0⟩ := Option.isSome_iff_exists.mp hA0
  rcases update_colors_cases cf inst ctrl links2 t0 with ⟨t2, hl, heq⟩ | ⟨t2, hl, heq⟩
  · rw [heq] at hab
    simp at hab
  · obtain ⟨re, hre, hn, hrel⟩ := ensurePass_lookup_mem ctrl t0 A hA
    have hrefl : re.flows = rA0.flows := by
      rcases hrel with ⟨rr, hrr, _, hf⟩ | ⟨hnone, _⟩
      · have : rr = rA0 := Option.some.inj (hrr.symm.trans hrA0)
        subst this
        exact hf
      · rw [hrA0] at hnone
        exact absurd hnone (by simp)
    have ht2 := addLinks_ok_lookup links2 (ensurePass ctrl t0) t2 hl A re hre
    obtain ⟨new, hnew, hcond⟩ := installAll_shape cf inst (t2.map Prod.fst) t2 A _ ht2
    have hnmem : B ∉ addNbrs re.neighbors (linkAddsAll A links2) := by
      intro hmem
      rcases (mem_addNbrs _ _ _).mp hmem with h1 | h2
      · rw [hn] at h1
        simp at h1
      · exact hnA h2
    refine ⟨rA0, _, hrA0, by rw [heq]; exact hnew, hnmem, ?_⟩
    show alookup (re.flows ++ new) B = alookup rA0.flows B
    rw [alookup_append_notmem_right _ _ _
      (fun x hx hxB => hnmem (by rw [← hxB]; exact (hcond x hx).1)), hrefl]

/-- C8: if a link between two controller switches is absent from a pass's link
list (neither endpoint contributes the other as a neighbor entry), then after
a full non-aborted reconcile each endpoint's neighbors set no longer contains
the other, while the previously recorded `flows` entry for the pair is
unchanged — installed entries are never removed. -/
theorem C8_neighbor_loss (cf : String) (inst : String → String → Nat)
    (ctrl : List CtrlSwitch) (links2 : List Link) (t0 : Tracker) (A B : String)
    (hab : (update_colors cf inst ctrl links2 t0).aborted = false)
    (hA : A ∈ ctrl.map CtrlSwitch.dpid) (hB : B ∈ ctrl.map CtrlSwitch.dpid)
    (hnA : B ∉ linkAddsAll A links2) (hnB : A ∉ linkAddsAll B links2)
    (hA0 : (alookup t0 A).isSome) (hB0 : (alookup t0 B).isSome) :
    ∃ rA0 rB0 rA rB, alookup t0 A = some rA0 ∧ alookup t0 B = some rB0 ∧
      alookup (update_colors cf inst ctrl links2 t0).tracker A = some rA ∧
      alookup (update_colors cf inst ctrl links2 t0).tracker B = some rB ∧
      B ∉ rA.neighbors ∧ A ∉ rB.neighbors ∧
      alookup rA.flows B = alookup rA0.flows B ∧
      alookup rB.flows A = alookup rB0.flows A := by
  obtain ⟨rA0, rA, h1, h2, h3, h4⟩ := C8_aux cf inst ctrl links2 t0 A B hab hA hnA hA0
  obtain ⟨rB0, rB, g1, g2, g3, g4⟩ := C8_aux cf inst ctrl links2 t0 B A hab hB hnB hB0
  exact ⟨rA0, rB0, rA, rB, h1, g1, h2, g2, h3, g3, h4, g4⟩

theorem C8_witness :
    ∃ rA0 rB0 rA rB,
      alookup (update_colors "in_port" (fun _ _ => 200)
        [⟨"00:00:00:00:00:00:00:01", 1⟩, ⟨"00:00:00:00:00:00:00:02", 1⟩]
        [⟨"00:00:00:00:00:00:00:01:1", "00:00:00:00:00:00:00:02:1"⟩]
        []).tracker "00:00:00:00:00:00:00:01" = some rA0 ∧
      alookup (update_colors "in_port" (fun _ _ => 200)
        [⟨"00:00:00:00:00:00:00:01", 1⟩, ⟨"00:00:00:00:00:00:00:02", 1⟩]
        [⟨"00:00:00:00:00:00:00:01:1", "00:00:00:00:00:00:00:02:1"⟩]
        []).tracker "00:00:00:00:00:00:00:02" = some rB0 ∧
      alookup (update_colors "in_port" (fun _ _ => 200)
        [⟨"00:00:00:00:00:00:00:01", 1⟩, ⟨"00:00:00:00:00:00:00:02", 1⟩] []
        (update_colors "in_port" (fun _ _ => 200)
          [⟨"00:00:00:00:00:00:00:01", 1⟩, ⟨"00:00:00:00:00:00:00:02", 1⟩]
          [⟨"00:00:00:00:00:00:00:01:1", "00:00:00:00:00:00:00:02:1"⟩]
          []).tracker).tracker "00:00:00:00:00:00:00:01" = some rA ∧
      alookup (update_colors "in_port" (fun _ _ => 200)
        [⟨"00:00:00:00:00:00:00:01", 1⟩, ⟨"00:00:00:00:00:00:00:02", 1⟩] []
        (update_colors "in_port" (fun _ _ => 200)
          [⟨"00:00:00:00:00:00:00:01", 1⟩, ⟨"00:00:00:00:00:00:00:02", 1⟩]
          [⟨"00:00:00:00:00:00:00:01:1", "00:00:00:00:00:00:00:02:1"⟩]
          []).tracker).tracker "00:00:00:00:00:00:00:02" = some rB ∧
      "00:00:00:00:00:00:00:02" ∉ rA.neighbors ∧
      "00:00:00:00:00:00:00:01" ∉ rB.neighbors ∧
      alookup rA.flows "00:00:00:00:00:00:00:02" =
        alookup rA0.flows "00:00:00:00:00:00:00:02" ∧
      alookup rB.flows "00:00:00:00:00:00:00:01" =
        alookup rB0.flows "00:00:00:00:00:00:00:01" :=
  C8_neighbor_loss "in_port" (fun _ _ => 200)
    [⟨"00:00:00:00:00:00:00:01", 1⟩, ⟨"00:00:00:00:00:00:00:02", 1⟩] []
    (update_colors "in_port" (fun _ _ => 200)
      [⟨"00:00:00:00:00:00:00:01", 1⟩, ⟨"00:00:00:00:00:00:00:02", 1⟩]
      [⟨"00:00:00:00:00:00:00:01:1", "00:00:00:00:00:00:00:02:1"⟩]
      []).tracker
    "00:00:00:00:00:00:00:01" "00:00:00:00:00:00:00:02"
    (by decide) (by decide) (by decide) (by decide) (by decide)
    (by decide) (by decide)
